import Mathlib

/-!
Verification of the tansu Kafka wire codec (`tansu-kafka-sans-io/src/de.rs`)
and the storage-layer `Topition` directory naming
(`tansu-storage/src/lib.rs`), as a shallow embedding over byte lists.

Bytes are naturals (`< 256` for well-formed streams); machine arithmetic is
made explicit with `% 2 ^ 32` etc.  The decoder of `de.rs` is embedded as a
state-passing function over a `Decoder` record mirroring the Rust struct;
fallible operations return `Except DErr`.
-/

namespace Tansu

/-! ### Schema metadata

The `tansu_kafka_model` crate (generated `FieldMeta` / `MessageMeta`) is not
part of the sources; the shapes below are modelled from the spec: a field
carries a version range, a nullable-version range and a kind; a message
carries a flexible-version threshold and its root field table.
-/

/-- Modelled from the spec: an inclusive version range with optional upper
bound, as used by `FieldMeta.version` / nullability gates. -/
structure VersionRange where
  lo : Int
  hi : Option Int
deriving DecidableEq, Repr

/-- `VersionRange::within`: the version is inside the (inclusive) range. -/
def VersionRange.within (r : VersionRange) (v : Int) : Bool :=
  decide (r.lo ≤ v) && (match r.hi with
    | none => true
    | some h => decide (v ≤ h))

/-- Modelled from the spec: the kind of a field (`FieldKind` of the model
crate), reduced to the distinctions `de.rs` consults: primitive scalar,
string, bytes, records, sequence-of, nested struct. -/
inductive FieldKindM where
  | primK
  | stringK
  | bytesK
  | recordsK
  | seqK (inner : FieldKindM)
  | structK
deriving DecidableEq, Repr

/-- `FieldKind::is_sequence`. -/
def FieldKindM.isSequence : FieldKindM → Bool
  | .seqK _ => true
  | _ => false

/-- `FieldKind::is_records`. -/
def FieldKindM.isRecords : FieldKindM → Bool
  | .recordsK => true
  | _ => false

/-- `FieldKind::is_string`. -/
def FieldKindM.isString : FieldKindM → Bool
  | .stringK => true
  | _ => false

/-- `FieldKind::is_primitive`. -/
def FieldKindM.isPrimitive : FieldKindM → Bool
  | .primK => true
  | _ => false

/-- `FieldKind::kind_of_sequence`. -/
def FieldKindM.kindOfSequence : FieldKindM → Option FieldKindM
  | .seqK i => some i
  | _ => none

/-- Modelled from the spec: per-field metadata (`FieldMeta`). -/
structure FieldMeta where
  version : VersionRange
  nullableVersion : VersionRange
  kind : FieldKindM
deriving DecidableEq, Repr

/-- `FieldMeta::is_nullable(api_version)`. -/
def FieldMeta.isNullableAt (f : FieldMeta) (v : Int) : Bool :=
  f.nullableVersion.within v

/-- Modelled from the spec: per-message metadata (`MessageMeta`): the
flexible threshold and the root field table (name, meta). -/
structure MessageMeta where
  flexibleLo : Option Int
  fields : List (String × FieldMeta)
deriving DecidableEq, Repr

/-- `MessageMeta::is_flexible(api_version)`. -/
def MessageMeta.isFlexible (m : MessageMeta) (v : Int) : Bool :=
  match m.flexibleLo with
  | some lo => decide (lo ≤ v)
  | none => false

/-- A version range that contains no version at all (fields that are never
nullable carry it as their nullable range). -/
def neverRange : VersionRange := ⟨0, some (-1)⟩

/-- Modelled from the spec: the generated schema of `ApiVersionsRequest`
(api_key 18): flexible from version 3; fields `client_software_name` and
`client_software_version`, both compact strings live from version 3 and
never nullable. -/
def apiVersionsRequestMeta : MessageMeta :=
  { flexibleLo := some 3
    fields :=
      [ ("client_software_name", ⟨⟨3, none⟩, neverRange, .stringK⟩)
      , ("client_software_version", ⟨⟨3, none⟩, neverRange, .stringK⟩) ] }

/-- Modelled from the spec: `RootMessageMeta::messages().requests()`,
restricted to the one message the claims exercise (api_key 18,
ApiVersions). -/
def requestsTable (k : Int) : Option MessageMeta :=
  if k = 18 then some apiVersionsRequestMeta else none

/-! ### Decoder state (`de.rs`) -/

/-- `Kind` of `de.rs`: request vs response direction. -/
inductive DirKind where
  | request
  | response
deriving DecidableEq, Repr

/-- `Container` of `de.rs`: the innermost struct/enum names. -/
inductive Container where
  | structC (nm : String)
  | enumC (nm : String)
deriving DecidableEq, Repr

/-- `Container::name`. -/
def Container.cname : Container → String
  | .structC nm => nm
  | .enumC nm => nm

/-- Decoder failure kinds reachable in the embedded fragment.  `de.rs`
surfaces I/O short reads, `TryFromIntError` on negative lengths, UTF-8
failures and `Error::StringWithoutLength`; decoding an api_key without a
schema or bytes left over after the frame are modelled as the last two. -/
inductive DErr where
  | shortRead
  | tryFromInt
  | invalidUtf8
  | stringWithoutLength
  | unsupportedKey
  | trailingBytes
deriving DecidableEq, Repr

/-- The `Decoder` struct of `de.rs`.  The `reader` plus `ReadPosition` pair
is embedded as the remaining `input` list together with the running byte
`pos`; `containers`, `field`, `kind`, `api_key`, `api_version`, the `Meta`
(message / field / parse stack) and the mode bits are carried verbatim. -/
structure Decoder where
  input : List Nat
  pos : Nat
  containers : List Container
  field : Option String
  kind : Option DirKind
  apiKey : Option Int
  apiVersion : Option Int
  metaMessage : Option MessageMeta
  metaField : Option FieldMeta
  parse : List (List (String × FieldMeta))
  length : Option Nat
  inSeqOfPrimitive : Bool
  inRecords : Bool
deriving DecidableEq, Repr

/-- `Decoder::request(reader)`. -/
def Decoder.request (input : List Nat) : Decoder :=
  { input := input
    pos := 0
    containers := []
    field := none
    kind := some .request
    apiKey := none
    apiVersion := none
    metaMessage := none
    metaField := none
    parse := []
    length := none
    inSeqOfPrimitive := false
    inRecords := false }

/-- `Decoder::in_header`: the innermost container is the header mezzanine. -/
def Decoder.inHeader (d : Decoder) : Bool :=
  match d.containers.head? with
  | some c => c.cname == "HeaderMezzanine"
  | none => false

/-- `Decoder::is_flexible` (de.rs lines 199-214): headers are never
flexible for `client_id` in requests, nor at all for api_key 18 responses;
otherwise the bound message's flexible threshold decides. -/
def Decoder.isFlexible (d : Decoder) : Bool :=
  if d.inHeader &&
      ((d.kind == some .request && d.field == some "client_id")
        || (d.kind == some .response && d.apiKey == some 18)) then
    false
  else
    match d.metaMessage, d.apiVersion with
    | some m, some v => m.isFlexible v
    | _, _ => false

/-- `Decoder::is_valid` (de.rs lines 216-223): the current field's version
range contains the bound api_version (vacuously true when either is
absent). -/
def Decoder.isValid (d : Decoder) : Bool :=
  match d.apiVersion with
  | none => true
  | some v =>
    match d.metaField with
    | none => true
    | some f => f.version.within v

/-- `Decoder::is_nullable` (de.rs lines 225-231). -/
def Decoder.isNullable (d : Decoder) : Bool :=
  match d.apiVersion, d.metaField with
  | some v, some f => f.isNullableAt v
  | _, _ => false

/-- `Decoder::is_sequence`. -/
def Decoder.isSequence (d : Decoder) : Bool :=
  match d.metaField with
  | some f => f.kind.isSequence
  | none => false

/-- `Decoder::is_records`. -/
def Decoder.isRecords (d : Decoder) : Bool :=
  match d.metaField with
  | some f => f.kind.isRecords
  | none => false

/-- `Decoder::is_string`: the header `client_id`, or a string-kinded
field. -/
def Decoder.isString (d : Decoder) : Bool :=
  (d.inHeader && d.field == some "client_id")
    || (match d.metaField with
        | some f => f.kind.isString
        | none => false)

/-! ### Primitive reads -/

/-- `Read::read_exact` through `ReadPosition`: take `n` bytes off the
stream, advancing the position by exactly `n`; fewer available bytes is a
short read. -/
def readExact (n : Nat) (d : Decoder) : Except DErr (List Nat × Decoder) :=
  if n ≤ d.input.length then
    .ok (d.input.take n, { d with input := d.input.drop n, pos := d.pos + n })
  else
    .error .shortRead

/-- The loop of `Decoder::unsigned_varint` (de.rs lines 304-327): 7-bit
groups, little-endian, MSB-1 continuation.  The source performs `u32`
accumulation with *no* over-length check; the release-build semantics of
the Rust shifts/adds (shift amount masked `% 32`, `u8` shift counter and
`u32` accumulator wrapping) are made explicit.  Returns
`(value, bytes consumed, rest)`. -/
def uvarintAux : List Nat → Nat → Nat → Option (Nat × Nat × List Nat)
  | [], _, _ => none
  | b :: rest, shift, acc =>
    if b &&& 128 == 128 then
      match uvarintAux rest ((shift + 7) % 256)
          ((acc + ((b &&& 127) <<< (shift % 32))) % 2 ^ 32) with
      | some (v, k, r) => some (v, k + 1, r)
      | none => none
    else
      some ((acc + (b <<< (shift % 32))) % 2 ^ 32, 1, rest)

/-- `Decoder::unsigned_varint`. -/
def Decoder.unsignedVarint (d : Decoder) : Except DErr (Nat × Decoder) :=
  match uvarintAux d.input 0 0 with
  | some (v, k, rest) => .ok (v, { d with input := rest, pos := d.pos + k })
  | none => .error .shortRead

/-- Big-endian value of a byte list (each byte reduced `% 256` as a `u8`). -/
def beVal (bs : List Nat) : Nat :=
  bs.foldl (fun a b => a * 256 + b % 256) 0

/-- Reinterpret a raw 16-bit value as a signed `i16`. -/
def toInt16 (raw : Nat) : Int :=
  if raw < 2 ^ 15 then (raw : Int) else (raw : Int) - 2 ^ 16

/-- Reinterpret a raw 32-bit value as a signed `i32`. -/
def toInt32 (raw : Nat) : Int :=
  if raw < 2 ^ 31 then (raw : Int) else (raw : Int) - 2 ^ 32

/-- Second continuation byte of a UTF-8 multi-byte sequence. -/
def utf8Cont (b : Nat) : Bool := decide (128 ≤ b) && decide (b < 192)

/-- Valid 2-byte UTF-8 sequence head/tail. -/
def utf8Two (b c1 : Nat) : Bool :=
  decide (194 ≤ b) && decide (b ≤ 223) && utf8Cont c1

/-- Valid 3-byte UTF-8 sequence (excluding overlong forms and
surrogates, as `std::str::from_utf8` does). -/
def utf8Three (b c1 c2 : Nat) : Bool :=
  ((b == 224 && decide (160 ≤ c1) && decide (c1 < 192))
    || (decide (225 ≤ b) && decide (b ≤ 236) && utf8Cont c1)
    || (b == 237 && decide (128 ≤ c1) && decide (c1 < 160))
    || (decide (238 ≤ b) && decide (b ≤ 239) && utf8Cont c1))
  && utf8Cont c2

/-- Valid 4-byte UTF-8 sequence (excluding overlong forms and values
beyond U+10FFFF). -/
def utf8Four (b c1 c2 c3 : Nat) : Bool :=
  ((b == 240 && decide (144 ≤ c1) && decide (c1 < 192))
    || (decide (241 ≤ b) && decide (b ≤ 243) && utf8Cont c1)
    || (b == 244 && decide (128 ≤ c1) && decide (c1 < 144)))
  && utf8Cont c2 && utf8Cont c3

/-- `std::str::from_utf8` validity of a byte sequence. -/
def isUtf8 : List Nat → Bool
  | [] => true
  | b :: r =>
    if b < 128 then isUtf8 r
    else
      match r with
      | [] => false
      | c1 :: r1 =>
        if utf8Two b c1 then isUtf8 r1
        else
          match r1 with
          | [] => false
          | c2 :: r2 =>
            if utf8Three b c1 c2 then isUtf8 r2
            else
              match r2 with
              | [] => false
              | c3 :: r3 =>
                if utf8Four b c1 c2 c3 then isUtf8 r3
                else false

/-! ### Length reading and the `deserialize_*` entry points -/

/-- `Decoder::read_mandatory_non_nullable_length` (de.rs lines 250-302).
Does nothing in the header, for nullable fields or for version-gated-out
fields.  Otherwise: flexible mode reads an unsigned varint `L` and stores
`L - 1` with `u32` wrap-around (the source's `length - 1` on a `u32`,
which for `L = 0` wraps to `2 ^ 32 - 1`; a debug build panics there);
non-flexible strings (and string elements of a primitive sequence) read an
`i16`, everything else an `i32`, failing on negative values via
`usize::try_from`. -/
def readMandatoryNonNullableLength (d : Decoder) : Except DErr Decoder :=
  if d.inHeader || d.isNullable || !d.isValid then .ok d
  else if d.isFlexible then
    match d.unsignedVarint with
    | .ok (l, d') => .ok { d' with length := some ((l + 2 ^ 32 - 1) % 2 ^ 32) }
    | .error e => .error e
  else if d.isString
      || (d.inSeqOfPrimitive
          && (match d.metaField with
              | some f =>
                (match f.kind.kindOfSequence with
                 | some sk => sk.isString
                 | none => false)
              | none => false)) then
    match readExact 2 d with
    | .ok (bs, d') =>
      if toInt16 (beVal bs) < 0 then .error .tryFromInt
      else .ok { d' with length := some (beVal bs) }
    | .error e => .error e
  else
    match readExact 4 d with
    | .ok (bs, d') =>
      if toInt32 (beVal bs) < 0 then .error .tryFromInt
      else .ok { d' with length := some (beVal bs) }
    | .error e => .error e

/-- `deserialize_string` (de.rs lines 585-614): read the pending length
(computing it first when absent), take that many bytes and validate
UTF-8.  The pending length is consumed (`self.length.take()`). -/
def deserializeString (d : Decoder) : Except DErr (List Nat × Decoder) :=
  match (if d.length == none then readMandatoryNonNullableLength d else .ok d) with
  | .error e => .error e
  | .ok d1 =>
    match d1.length with
    | some len =>
      match readExact len { d1 with length := none } with
      | .ok (bs, d2) =>
        if isUtf8 bs then .ok (bs, d2) else .error .invalidUtf8
      | .error e => .error e
    | none => .error .stringWithoutLength

/-- `deserialize_bytes` (de.rs lines 616-637): flexible mode reads a
varint and subtracts one with `u32` wrap-around; non-flexible reads an
unsigned 32-bit length.  Then reads exactly that many bytes. -/
def deserializeBytes (d : Decoder) : Except DErr (List Nat × Decoder) :=
  match (if d.isFlexible then
          match d.unsignedVarint with
          | .ok (l, d') => .ok (((l + 2 ^ 32 - 1) % 2 ^ 32 : Nat), d')
          | .error e => .error e
        else
          match readExact 4 d with
          | .ok (bs, d') => .ok (beVal bs, d')
          | .error e => .error e : Except DErr (Nat × Decoder)) with
  | .ok (len, d1) => readExact len d1
  | .error e => .error e

/-- Outcome of `deserialize_option`: did the visitor see `none` or
`some` (with the decoder primed for the payload)? -/
inductive OptOutcome where
  | vNone
  | vSome
deriving DecidableEq, Repr

/-- `deserialize_option` (de.rs lines 662-762), the option-sniffing
dispatcher: version-gated-out fields yield `none` without reading;
`tag_buffer` fields are present iff flexible; records read a length
(varint minus one with wrap-around when flexible, unsigned 32-bit
otherwise) and are null iff it is zero; sequences and strings read their
length encoding and are null on the sentinel (varint 0 / signed -1);
everything else is `some`. -/
def deserializeOption (d : Decoder) : Except DErr (OptOutcome × Decoder) :=
  if d.isValid then
    if d.field == some "tag_buffer" then
      if d.isFlexible then .ok (.vSome, { d with length := none })
      else .ok (.vNone, d)
    else if d.isRecords then
      match (if d.isFlexible then
              match d.unsignedVarint with
              | .ok (l, d') => .ok (((l + 2 ^ 32 - 1) % 2 ^ 32 : Nat), d')
              | .error e => .error e
            else
              match readExact 4 d with
              | .ok (bs, d') => .ok (beVal bs, d')
              | .error e => .error e : Except DErr (Nat × Decoder)) with
      | .error e => .error e
      | .ok (len, d1) =>
        if len == 0 then .ok (.vNone, d1)
        else .ok (.vSome, { d1 with length := some len, inRecords := true })
    else if d.isSequence then
      if d.isFlexible then
        match d.unsignedVarint with
        | .error e => .error e
        | .ok (l, d1) =>
          if l == 0 then .ok (.vNone, { d1 with length := none })
          else .ok (.vSome, { d1 with length := some (l - 1) })
      else
        match readExact 4 d with
        | .error e => .error e
        | .ok (bs, d1) =>
          if toInt32 (beVal bs) == -1 then .ok (.vNone, { d1 with length := none })
          else if toInt32 (beVal bs) < 0 then .error .tryFromInt
          else .ok (.vSome, { d1 with length := some (beVal bs) })
    else if d.isString then
      if d.isFlexible then
        match d.unsignedVarint with
        | .error e => .error e
        | .ok (l, d1) =>
          if l == 0 then .ok (.vNone, { d1 with length := none })
          else .ok (.vSome, { d1 with length := some (l - 1) })
      else
        match readExact 2 d with
        | .error e => .error e
        | .ok (bs, d1) =>
          if toInt16 (beVal bs) == -1 then .ok (.vNone, { d1 with length := none })
          else if toInt16 (beVal bs) < 0 then .error .tryFromInt
          else .ok (.vSome, { d1 with length := some (beVal bs) })
    else .ok (.vSome, { d with length := none })
  else .ok (.vNone, { d with length := none })

/-- `deserialize_i16` (de.rs lines 383-426): read a big-endian `i16`; in
the request header mezzanine, reading `api_key` binds the message schema
and reading `api_version` binds the version. -/
def deserializeI16 (d : Decoder) : Except DErr (Int × Decoder) :=
  match readExact 2 d with
  | .error e => .error e
  | .ok (bs, d1) =>
    let v : Int := toInt16 (beVal bs)
    match d1.containers.head?, d1.field with
    | some (.structC "HeaderMezzanine"), some "api_key" =>
      let d2 := { d1 with apiKey := some v }
      (match requestsTable v with
       | some m =>
         .ok (v, { d2 with metaMessage := some m, parse := m.fields :: d2.parse })
       | none => .ok (v, d2))
    | some (.structC "HeaderMezzanine"), some "api_version" =>
      .ok (v, { d1 with apiVersion := some v })
    | _, _ => .ok (v, d1)

/-- `deserialize_i32`: read a big-endian `i32`. -/
def deserializeI32 (d : Decoder) : Except DErr (Int × Decoder) :=
  match readExact 4 d with
  | .error e => .error e
  | .ok (bs, d1) => .ok (toInt32 (beVal bs), d1)

/-- `Struct::next_element_seed` bookkeeping (de.rs lines 1093-1120): set
the current field name and look its metadata up in the innermost parse
table (when a table is on the stack). -/
def fieldStep (nm : String) (d : Decoder) : Decoder :=
  let d1 := { d with field := some nm }
  match d1.parse.head? with
  | some fl => { d1 with metaField := (fl.find? (fun p => p.fst == nm)).map Prod.snd }
  | none => d1

/-! ### Tagged-field buffers

Modelled from the spec: a tag buffer is an unsigned-varint entry count,
then per entry an unsigned-varint tag id, an unsigned-varint byte length
and that many raw bytes, preserved verbatim.  (The `TagBuffer` primitive
lives outside the sources.) -/

/-- Decode `n` tagged entries. -/
def decodeTagEntries : Nat → Decoder → Except DErr (List (Nat × List Nat) × Decoder)
  | 0, d => .ok ([], d)
  | n + 1, d =>
    match d.unsignedVarint with
    | .error e => .error e
    | .ok (tagId, d1) =>
      match d1.unsignedVarint with
      | .error e => .error e
      | .ok (len, d2) =>
        match readExact len d2 with
        | .error e => .error e
        | .ok (bs, d3) =>
          match decodeTagEntries n d3 with
          | .error e => .error e
          | .ok (ts, d4) => .ok ((tagId, bs) :: ts, d4)

/-- Decode a whole tag buffer: varint count then the entries. -/
def decodeTagBuffer (d : Decoder) : Except DErr (List (Nat × List Nat) × Decoder) :=
  match d.unsignedVarint with
  | .error e => .error e
  | .ok (n, d1) => decodeTagEntries n d1

/-! ### The composed ApiVersions-request frame codec

`Frame::request_from_bytes` drives serde across `Frame { size, header,
body }`; the generated mezzanine walk (frame size, request header with
`api_key` / `api_version` / `correlation_id` / nullable non-compact
`client_id` / tag buffer, then the body selected by the bound schema) is
composed here from the embedded `deserialize_*` entry points of `de.rs`,
with the container/parse bookkeeping of `deserialize_struct` /
`deserialize_enum` applied at each boundary.  Only api_key 18
(ApiVersions) is in the modelled registry. -/

/-- The decoded ApiVersions v3 request frame (header and body values;
the redundant frame size is recomputed on encode, as
`Frame::request(header, body)` does).  Strings are UTF-8 byte lists. -/
structure ReqFrame where
  apiKey : Int
  apiVersion : Int
  correlationId : Int
  clientId : Option (List Nat)
  headerTags : Option (List (Nat × List Nat))
  clientSoftwareName : Option (List Nat)
  clientSoftwareVersion : Option (List Nat)
  bodyTags : Option (List (Nat × List Nat))
deriving DecidableEq, Repr

/-- Decode an optional string field: sniff with `deserialize_option`,
then read the string payload when present. -/
def decodeOptString (d : Decoder) : Except DErr (Option (List Nat) × Decoder) :=
  match deserializeOption d with
  | .error e => .error e
  | .ok (.vNone, d1) => .ok (none, d1)
  | .ok (.vSome, d1) =>
    match deserializeString d1 with
    | .error e => .error e
    | .ok (s, d2) => .ok (some s, d2)

/-- Decode an optional tag buffer field. -/
def decodeOptTagBuffer (d : Decoder) : Except DErr (Option (List (Nat × List Nat)) × Decoder) :=
  match deserializeOption d with
  | .error e => .error e
  | .ok (.vNone, d1) => .ok (none, d1)
  | .ok (.vSome, d1) =>
    match decodeTagBuffer d1 with
    | .error e => .error e
    | .ok (ts, d2) => .ok (some ts, d2)

/-- Decode a whole ApiVersions request frame from its bytes (the walk of
`Frame::request_from_bytes` for api_key 18), demanding — as the spec's
all-or-nothing frame rule does — that the frame is consumed exactly. -/
def decodeRequestFrame (input : List Nat) : Except DErr ReqFrame :=
  let d := Decoder.request input
  let d := { d with containers := .structC "Frame" :: d.containers }
  match deserializeI32 (fieldStep "size" d) with
  | .error e => .error e
  | .ok (_, d) =>
    let d := fieldStep "header" d
    let d := { d with containers := .enumC "HeaderMezzanine" :: d.containers }
    let d := { d with containers := .structC "HeaderMezzanine" :: d.containers }
    match deserializeI16 (fieldStep "api_key" d) with
    | .error e => .error e
    | .ok (k, d) =>
      match deserializeI16 (fieldStep "api_version" d) with
      | .error e => .error e
      | .ok (v, d) =>
        match deserializeI32 (fieldStep "correlation_id" d) with
        | .error e => .error e
        | .ok (corr, d) =>
          match decodeOptString (fieldStep "client_id" d) with
          | .error e => .error e
          | .ok (cid, d) =>
            match decodeOptTagBuffer (fieldStep "tag_buffer" d) with
            | .error e => .error e
            | .ok (htags, d) =>
              let d := { d with containers := d.containers.drop 2 }
              match d.metaMessage with
              | none => .error .unsupportedKey
              | some mm =>
                let d := fieldStep "body" d
                let d := { d with containers := .enumC "Body" :: d.containers }
                let d := { d with
                  containers := .structC "Body" :: d.containers
                  parse := mm.fields :: d.parse }
                match decodeOptString (fieldStep "client_software_name" d) with
                | .error e => .error e
                | .ok (csn, d) =>
                  match decodeOptString (fieldStep "client_software_version" d) with
                  | .error e => .error e
                  | .ok (csv, d) =>
                    match decodeOptTagBuffer (fieldStep "tag_buffer" d) with
                    | .error e => .error e
                    | .ok (btags, d) =>
                      if d.input.isEmpty then
                        .ok { apiKey := k
                              apiVersion := v
                              correlationId := corr
                              clientId := cid
                              headerTags := htags
                              clientSoftwareName := csn
                              clientSoftwareVersion := csv
                              bodyTags := btags }
                      else .error .trailingBytes

/-! ### Encoder (spec-modelled)

The encoder crate (`ser.rs`) is outside the sources.  Modelled from the
spec: minimal unsigned varints; compact lengths are `actual + 1` with `0`
for null; the header `client_id` is a non-compact nullable 16-bit-length
string; tag buffers emit count then `(id, length, bytes)` entries; the
4-byte frame length prefix is the exact payload size. -/

/-- Fuel-driven digit loop of the minimal unsigned-varint encoding (the
fuel only makes the structural recursion explicit; `n + 1` fuel always
suffices). -/
def encVarintF (fuel n : Nat) : List Nat :=
  match fuel with
  | 0 => []
  | fuel + 1 => if n < 128 then [n] else (n % 128 + 128) :: encVarintF fuel (n / 128)

/-- Minimal (canonical) unsigned-varint encoding. -/
def encVarint (n : Nat) : List Nat := encVarintF (n + 1) n

/-- 2-byte big-endian encoding of a raw 16-bit value. -/
def encBE2 (v : Nat) : List Nat := [v / 256 % 256, v % 256]

/-- 4-byte big-endian encoding of a raw 32-bit value. -/
def encBE4 (v : Nat) : List Nat :=
  [v / 2 ^ 24 % 256, v / 2 ^ 16 % 256, v / 256 % 256, v % 256]

/-- Two's-complement raw 16-bit image of an `i16` value. -/
def toRaw16 (i : Int) : Nat := (i % 2 ^ 16).toNat

/-- Two's-complement raw 32-bit image of an `i32` value. -/
def toRaw32 (i : Int) : Nat := (i % 2 ^ 32).toNat

/-- Encode a tag buffer: entry count, then id / length / raw bytes per
entry. -/
def encTagBuffer (ts : List (Nat × List Nat)) : List Nat :=
  encVarint ts.length
    ++ ts.flatMap (fun t => encVarint t.1 ++ encVarint t.2.length ++ t.2)

/-- Encode a compact (flexible) nullable string: varint `length + 1`, or
`0` for null. -/
def encCompactString (s : Option (List Nat)) : List Nat :=
  match s with
  | none => [0]
  | some bs => encVarint (bs.length + 1) ++ bs

/-- Encode the non-compact nullable header `client_id`: 16-bit length or
the `-1` sentinel. -/
def encClientId (s : Option (List Nat)) : List Nat :=
  match s with
  | none => [255, 255]
  | some bs => encBE2 bs.length ++ bs

/-- Encode an optional tag buffer (absent when the message is not
flexible, hence no bytes). -/
def encOptTagBuffer (ts : Option (List (Nat × List Nat))) : List Nat :=
  match ts with
  | none => []
  | some ts => encTagBuffer ts

/-- Encode an ApiVersions request frame, 4-byte length prefix included
(the mirror of `decodeRequestFrame`, i.e. `Frame::request(header, body)`). -/
def encodeRequestFrame (f : ReqFrame) : List Nat :=
  let payload :=
    encBE2 (toRaw16 f.apiKey) ++ encBE2 (toRaw16 f.apiVersion)
      ++ encBE4 (toRaw32 f.correlationId)
      ++ encClientId f.clientId
      ++ encOptTagBuffer f.headerTags
      ++ encCompactString f.clientSoftwareName
      ++ encCompactString f.clientSoftwareVersion
      ++ encOptTagBuffer f.bodyTags
  encBE4 payload.length ++ payload

/-! ### Storage: `Topition` directory naming (`tansu-storage/src/lib.rs`)

Strings are modelled as their byte lists (`&str` slicing in the source is
byte-indexed; all characters involved in the partition suffix are ASCII).
-/

/-- Fuel-driven decimal digit loop (little-endian ASCII digits; `n + 1`
fuel always suffices). -/
def decDigitsF (fuel n : Nat) : List Nat :=
  match fuel with
  | 0 => []
  | fuel + 1 => if n < 10 then [48 + n] else (48 + n % 10) :: decDigitsF fuel (n / 10)

/-- Decimal digits of `n`, little-endian, as ASCII byte values (the digit
loop of Rust's integer `Display`). -/
def decDigitsAux (n : Nat) : List Nat := decDigitsF (n + 1) n

/-- Decimal ASCII rendering of `n` (big-endian digit order). -/
def natToDec (n : Nat) : List Nat := (decDigitsAux n).reverse

/-- `{partition:0>10}`: left-pad the decimal rendering with `'0'` to
width 10. -/
def pad10 (ds : List Nat) : List Nat := List.replicate (10 - ds.length) 48 ++ ds

/-- `From<&Topition> for PathBuf`: the directory name
`"{topic}-{partition:0>10}"` for a non-negative partition. -/
def renderTopition (topic : List Nat) (p : Nat) : List Nat :=
  topic ++ 45 :: pad10 (natToDec p)

/-- Accumulating decimal parse of ASCII digits; any non-digit fails
(`Nat` accumulation is exact, so a final range check models the
step-wise overflow check of `i32::from_str`). -/
def parseNatDigitsAux : List Nat → Nat → Option Nat
  | [], acc => some acc
  | b :: r, acc =>
    if 48 ≤ b ∧ b ≤ 57 then parseNatDigitsAux r (acc * 10 + (b - 48))
    else none

/-- `i32::from_str`: optional sign, at least one digit, `i32` range. -/
def i32FromStr (s : List Nat) : Option Int :=
  match s with
  | [] => none
  | b :: r =>
    if b = 43 then
      if r = [] then none
      else (parseNatDigitsAux r 0).bind
        (fun n => if n ≤ 2 ^ 31 - 1 then some (n : Int) else none)
    else if b = 45 then
      if r = [] then none
      else (parseNatDigitsAux r 0).bind
        (fun n => if n ≤ 2 ^ 31 then some (-(n : Int)) else none)
    else (parseNatDigitsAux (b :: r) 0).bind
      (fun n => if n ≤ 2 ^ 31 - 1 then some (n : Int) else none)

/-- `Topition::from_str`: parse the last 10 bytes as the partition and
drop the preceding dash for the topic (the out-of-bounds slice panics of
strings shorter than 11 bytes are modelled as `none`). -/
def topitionFromStr (s : List Nat) : Option (List Nat × Int) :=
  if 11 ≤ s.length then
    (i32FromStr (s.drop (s.length - 10))).map
      (fun p => (s.take (s.length - 11), p))
  else none

/-! ### Well-formedness of encodable frames -/

/-- A tag entry the wire format can carry: id and byte length fit `u32`. -/
def tagWF (t : Nat × List Nat) : Bool :=
  decide (t.1 < 2 ^ 32) && decide (t.2.length < 2 ^ 32)

/-- A compact string payload: valid UTF-8 with a `u32`-biased length. -/
def strWF (s : List Nat) : Bool :=
  isUtf8 s && decide (s.length + 1 < 2 ^ 32)

/-- A tag buffer with in-range count and entries. -/
def tagsWF (ts : List (Nat × List Nat)) : Bool :=
  decide (ts.length < 2 ^ 32) && ts.all tagWF

/-- Well-formed ApiVersions v3 request values: the values the encoder's
domain admits (schema pins api_key 18, api_version 3; flexible tag
buffers present; lengths in range; strings valid UTF-8). -/
def ReqFrame.wf (f : ReqFrame) : Bool :=
  f.apiKey == 18 && f.apiVersion == 3
    && decide (-(2 ^ 31) ≤ f.correlationId) && decide (f.correlationId < 2 ^ 31)
    && (match f.clientId with
        | none => true
        | some s => decide (s.length < 2 ^ 15) && isUtf8 s)
    && (match f.headerTags with
        | none => false
        | some ts => tagsWF ts)
    && (match f.clientSoftwareName with
        | none => true
        | some s => strWF s)
    && (match f.clientSoftwareVersion with
        | none => true
        | some s => strWF s)
    && (match f.bodyTags with
        | none => false
        | some ts => tagsWF ts)

/-- The 56-byte ApiVersions v3 request frame of the codec test
`api_versions_request_v3_000`. -/
def sampleFrameBytes : List Nat :=
  [0, 0, 0, 52, 0, 18, 0, 3, 0, 0, 0, 3, 0, 16, 99, 111, 110, 115, 111, 108, 101, 45, 112,
   114, 111, 100, 117, 99, 101, 114, 0, 18, 97, 112, 97, 99, 104, 101, 45, 107, 97, 102, 107,
   97, 45, 106, 97, 118, 97, 6, 51, 46, 54, 46, 49, 0]

/-- The same frame with the `client_software_name` compact length 18
re-encoded as the non-minimal two-byte varint `0x92 0x00` (and the frame
length prefix bumped to 53): it decodes to the same value. -/
def sampleFrameBytesPadded : List Nat :=
  [0, 0, 0, 53, 0, 18, 0, 3, 0, 0, 0, 3, 0, 16, 99, 111, 110, 115, 111, 108, 101, 45, 112,
   114, 111, 100, 117, 99, 101, 114, 0, 146, 0, 97, 112, 97, 99, 104, 101, 45, 107, 97, 102,
   107, 97, 45, 106, 97, 118, 97, 6, 51, 46, 54, 46, 49, 0]

/-- The value the sample frame decodes to. -/
def sampleFrame : ReqFrame :=
  { apiKey := 18
    apiVersion := 3
    correlationId := 3
    clientId := some [99, 111, 110, 115, 111, 108, 101, 45, 112, 114, 111, 100, 117, 99, 101, 114]
    headerTags := some []
    clientSoftwareName :=
      some [97, 112, 97, 99, 104, 101, 45, 107, 97, 102, 107, 97, 45, 106, 97, 118, 97]
    clientSoftwareVersion := some [51, 46, 54, 46, 49]
    bodyTags := some [] }

/-! ### Byte-accounting (the `ReadPosition` discipline) -/

/-- An operation consumes bytes correctly when, on success, it removes a
prefix of the input and advances `pos` by exactly that prefix's length
(`ReadPosition::read` adds the count of bytes actually read, and nothing
else touches the position). -/
def Consumes {a : Type} (f : Decoder → Except DErr (a × Decoder)) : Prop :=
  ∀ d x d2, f d = .ok (x, d2) →
    ∃ taken, d.input = taken ++ d2.input ∧ d2.pos = d.pos + taken.length

/-- `Consumes` for operations returning only the updated decoder. -/
def Consumes0 (f : Decoder → Except DErr Decoder) : Prop :=
  ∀ d d2, f d = .ok d2 →
    ∃ taken, d.input = taken ++ d2.input ∧ d2.pos = d.pos + taken.length


/-! ### Concrete decoder states exercised by the claim analysis -/

/-- A mandatory (non-option) flexible compact-string field about to read
its length, with the varint `L = 0` on the wire. -/
def stateMandatoryZero : Decoder :=
  { input := [0]
    pos := 0
    containers := [.structC "Body"]
    field := some "client_software_name"
    kind := some .request
    apiKey := some 18
    apiVersion := some 3
    metaMessage := some apiVersionsRequestMeta
    metaField := some ⟨⟨3, none⟩, neverRange, .stringK⟩
    parse := [apiVersionsRequestMeta.fields]
    length := none
    inSeqOfPrimitive := false
    inRecords := false }

/-- A non-flexible option-string field that is NOT nullable at the bound
version, with the -1 length sentinel on the wire. -/
def stateNotNullableSentinel : Decoder :=
  { input := [255, 255]
    pos := 0
    containers := []
    field := some "name"
    kind := some .request
    apiKey := some 7
    apiVersion := some 1
    metaMessage := none
    metaField := some ⟨⟨0, none⟩, neverRange, .stringK⟩
    parse := []
    length := none
    inSeqOfPrimitive := false
    inRecords := false }

/-- A records field in flexible mode with the varint `L = 0` (the
compact-length null sentinel) on the wire. -/
def stateRecordsZero : Decoder :=
  { input := [0]
    pos := 0
    containers := [.structC "Body"]
    field := some "records"
    kind := some .request
    apiKey := some 18
    apiVersion := some 3
    metaMessage := some apiVersionsRequestMeta
    metaField := some ⟨⟨0, none⟩, neverRange, .recordsK⟩
    parse := []
    length := none
    inSeqOfPrimitive := false
    inRecords := false }

/-- A records field in flexible mode with the varint `L = 1` (present,
zero bytes) on the wire. -/
def stateRecordsOne : Decoder := { stateRecordsZero with input := [1] }

/-- A records field in non-flexible mode with the four bytes
`FF FF FF FF` (the signed 32-bit `-1` null sentinel of the length rule)
on the wire. -/
def stateRecordsNegOne : Decoder :=
  { input := [255, 255, 255, 255]
    pos := 0
    containers := [.structC "Body"]
    field := some "records"
    kind := some .request
    apiKey := some 0
    apiVersion := some 1
    metaMessage := none
    metaField := some ⟨⟨0, none⟩, neverRange, .recordsK⟩
    parse := []
    length := none
    inSeqOfPrimitive := false
    inRecords := false }

/-- The record-batch byte-budget reader: `Batch` and its
`SeqAccess::next_element_seed` (de.rs lines 1001-1031), driven by the
sequence visitor that keeps requesting elements until the budget is
exhausted.  While `remaining > 0` an element is decoded and the bytes it
consumed (`delta = position - start`) are subtracted from `remaining`, a
`u64` subtraction that wraps on underflow in release builds (made
explicit here); at `remaining = 0` the access reports the end of the
sequence.  The source loop has no fuel: `fuel` only bounds the number of
visitor iterations in this embedding, and since every iteration of an
aligned batch consumes at least one byte, `fuel = remaining` always
suffices there (the fuel-exhausted row is unreachable on aligned
input). -/
def batchLoop (elem : Decoder → Except DErr Decoder) :
    Nat → Nat → Decoder → Except DErr Decoder
  | _, 0, d => .ok d
  | 0, _ + 1, _ => .error .shortRead
  | fuel + 1, remaining + 1, d =>
    match elem d with
    | .error e => .error e
    | .ok d1 =>
      batchLoop elem fuel ((remaining + 1 + 2 ^ 64 - (d1.pos - d.pos)) % 2 ^ 64) d1

/-- The records payload starting at `d` parses to an exact alignment
with the byte budget `remaining`: repeatedly decoding one element
succeeds, consumes at least one and at most the remaining bytes per
step, and lands exactly on the budget boundary.  This is the
well-formedness of the batch bytes that `Batch`'s unchecked `u64`
budget subtraction presumes. -/
inductive BatchAligned (elem : Decoder → Except DErr Decoder) : Nat → Decoder → Prop where
  | done (d : Decoder) : BatchAligned elem 0 d
  | step (remaining : Nat) (d d1 : Decoder)
      (helem : elem d = .ok d1)
      (hlt : d.pos < d1.pos)
      (hle : d1.pos ≤ d.pos + remaining)
      (hrest : BatchAligned elem (remaining - (d1.pos - d.pos)) d1) :
      BatchAligned elem remaining d

/-- The response-header `tag_buffer` position of an api_key 18 response
at a flexible body version. -/
def stateApi18RespHeader : Decoder :=
  { input := [1, 2, 3]
    pos := 0
    containers := [.structC "HeaderMezzanine"]
    field := some "tag_buffer"
    kind := some .response
    apiKey := some 18
    apiVersion := some 3
    metaMessage := some apiVersionsRequestMeta
    metaField := none
    parse := []
    length := none
    inSeqOfPrimitive := false
    inRecords := false }

/-- A field whose version range (5 and up) does not contain the bound
api_version 3. -/
def stateGatedOut : Decoder :=
  { input := [9, 9]
    pos := 0
    containers := [.structC "Body"]
    field := some "newer_field"
    kind := some .request
    apiKey := some 18
    apiVersion := some 3
    metaMessage := some apiVersionsRequestMeta
    metaField := some ⟨⟨5, none⟩, neverRange, .stringK⟩
    parse := []
    length := none
    inSeqOfPrimitive := false
    inRecords := false }

end Tansu

namespace Tansu

/-! ## Helper lemmas -/

theorem and127_eq_mod (n : Nat) : n &&& 127 = n % 128 := by
  have h : (127 : Nat) = 2 ^ 7 - 1 := by norm_num
  rw [h, Nat.and_pow_two_sub_one_eq_mod]

theorem and128_lo (b : Nat) (h : b < 128) : b &&& 128 = 0 := by
  have h2 := Nat.and_two_pow b 7
  norm_num at h2
  rw [h2, Nat.testBit_eq_false_of_lt (by omega)]
  simp

theorem and128_hi (b : Nat) (h1 : 128 ≤ b) (h2 : b < 256) : b &&& 128 = 128 := by
  have h3 := Nat.and_two_pow b 7
  norm_num at h3
  rw [h3, Nat.testBit_to_div_mod]
  have h4 : b / 128 = 1 := by omega
  norm_num [h4]

theorem encVarintF_congr (m : Nat) :
    ∀ f1 f2, m < f1 → m < f2 → encVarintF f1 m = encVarintF f2 m := by
  induction m using Nat.strong_induction_on with
  | _ m ih =>
    intro f1 f2 h1 h2
    match f1, f2 with
    | g1 + 1, g2 + 1 =>
      simp only [encVarintF]
      by_cases hm : m < 128
      · simp [hm]
      · simp only [hm, if_false]
        rw [ih (m / 128) (by omega) g1 g2 (by omega) (by omega)]

theorem encVarint_unfold (n : Nat) :
    encVarint n = if n < 128 then [n] else (n % 128 + 128) :: encVarint (n / 128) := by
  show encVarintF (n + 1) n = _
  simp only [encVarintF]
  by_cases hn : n < 128
  · simp [hn]
  · simp only [hn, if_false]
    rw [encVarintF_congr (n / 128) n (n / 128 + 1) (by omega) (by omega)]
    rfl

theorem encVarint_bytes_lt (n : Nat) : ∀ b ∈ encVarint n, b < 256 := by
  induction n using Nat.strong_induction_on with
  | _ n ih =>
    rw [encVarint_unfold]
    by_cases hn : n < 128
    · intro b hb
      simp [hn] at hb
      omega
    · simp only [hn, if_false]
      intro b hb
      rcases List.mem_cons.mp hb with h | h
      · subst h; omega
      · exact ih (n / 128) (by omega) b h

theorem uvarintAux_enc (n : Nat) :
    ∀ shift acc rest, shift ≤ 31 → acc + n * 2 ^ shift < 2 ^ 32 →
      uvarintAux (encVarint n ++ rest) shift acc =
        some (acc + n * 2 ^ shift, (encVarint n).length, rest) := by
  induction n using Nat.strong_induction_on with
  | _ n ih =>
    intro shift acc rest hs hbound
    rw [encVarint_unfold]
    by_cases hn : n < 128
    · simp only [if_pos hn, List.cons_append, List.nil_append, uvarintAux]
      have hc : (n &&& 128 == 128) = false := by
        simp [and128_lo n hn]
      simp only [hc, Bool.false_eq_true, if_false]
      have hsm : shift % 32 = shift := Nat.mod_eq_of_lt (by omega)
      rw [hsm, Nat.shiftLeft_eq, Nat.mod_eq_of_lt hbound]
      simp [encVarint_unfold, hn]
    · simp only [if_neg hn, List.cons_append, uvarintAux]
      have hb256 : n % 128 + 128 < 256 := by omega
      have hc : ((n % 128 + 128) &&& 128 == 128) = true := by
        simp [and128_hi _ (by omega) hb256]
      simp only [hc, if_true]
      have hsm : shift % 32 = shift := Nat.mod_eq_of_lt (by omega)
      have hmono : n % 128 * 2 ^ shift ≤ n * 2 ^ shift :=
        Nat.mul_le_mul_right _ (Nat.mod_le _ _)
      have hacc : acc + n % 128 * 2 ^ shift < 2 ^ 32 := by omega
      have hand : (n % 128 + 128) &&& 127 = n % 128 := by
        rw [and127_eq_mod]; omega
      rw [hsm, hand, Nat.shiftLeft_eq, Nat.mod_eq_of_lt hacc]
      have hn128 : 128 ≤ n := by omega
      have hshift7 : shift + 7 ≤ 31 := by
        by_contra hcon
        have h32 : 32 ≤ shift + 7 := by omega
        have : 2 ^ 32 ≤ n * 2 ^ shift := by
          calc 2 ^ 32 ≤ 2 ^ (shift + 7) := Nat.pow_le_pow_right (by omega) h32
          _ = 2 ^ 7 * 2 ^ shift := by ring
          _ ≤ n * 2 ^ shift := Nat.mul_le_mul_right _ (by omega)
        omega
      have hsplit : n % 128 + n / 128 * 128 = n := Nat.mod_add_div' n 128
      have hjoin : n % 128 * 2 ^ shift + n / 128 * 2 ^ (shift + 7) = n * 2 ^ shift := by
        calc n % 128 * 2 ^ shift + n / 128 * 2 ^ (shift + 7)
            = (n % 128 + n / 128 * 128) * 2 ^ shift := by ring_nf
          _ = n * 2 ^ shift := by rw [hsplit]
      have hdivbound : (acc + n % 128 * 2 ^ shift) + n / 128 * 2 ^ (shift + 7) < 2 ^ 32 := by
        omega
      have h7 : (shift + 7) % 256 = shift + 7 := Nat.mod_eq_of_lt (by omega)
      rw [h7, ih (n / 128) (Nat.div_lt_self (by omega) (by omega)) (shift + 7)
        (acc + n % 128 * 2 ^ shift) rest hshift7 hdivbound]
      have hval : acc + n % 128 * 2 ^ shift + n / 128 * 2 ^ (shift + 7) =
          acc + n * 2 ^ shift := by omega
      rw [hval]
      simp [List.length_cons]

end Tansu

namespace Tansu

theorem readExact_append (d : Decoder) (xs rest : List Nat) (h : d.input = xs ++ rest) :
    readExact xs.length d =
      .ok (xs, { d with input := rest, pos := d.pos + xs.length }) := by
  unfold readExact
  rw [h]
  rw [if_pos (by simp)]
  simp [List.take_left, List.drop_left]

theorem unsignedVarint_enc (d : Decoder) (n : Nat) (rest : List Nat)
    (hn : n < 2 ^ 32) (hin : d.input = encVarint n ++ rest) :
    d.unsignedVarint =
      .ok (n, { d with input := rest, pos := d.pos + (encVarint n).length }) := by
  unfold Decoder.unsignedVarint
  rw [hin, uvarintAux_enc n 0 0 rest (by omega) (by simpa using hn)]
  simp

theorem beVal_encBE2 (v : Nat) : beVal (encBE2 v) = v % 2 ^ 16 := by
  simp only [beVal, encBE2, List.foldl]
  omega

theorem beVal_encBE4 (v : Nat) : beVal (encBE4 v) = v % 2 ^ 32 := by
  simp only [beVal, encBE4, List.foldl]
  omega

theorem encBE2_length (v : Nat) : (encBE2 v).length = 2 := rfl

theorem encBE4_length (v : Nat) : (encBE4 v).length = 4 := rfl

theorem toInt16_raw (i : Int) (h1 : -(2 ^ 15) ≤ i) (h2 : i < 2 ^ 15) :
    toInt16 (beVal (encBE2 (toRaw16 i))) = i := by
  rw [beVal_encBE2]
  unfold toRaw16 toInt16
  split <;> omega

theorem toInt32_raw (i : Int) (h1 : -(2 ^ 31) ≤ i) (h2 : i < 2 ^ 31) :
    toInt32 (beVal (encBE4 (toRaw32 i))) = i := by
  rw [beVal_encBE4]
  unfold toRaw32 toInt32
  split <;> omega

end Tansu

namespace Tansu

theorem deserializeOption_invalid (d : Decoder) (hval : d.isValid = false) :
    deserializeOption d = .ok (.vNone, { d with length := none }) := by
  unfold deserializeOption
  simp [hval]

theorem deserializeOption_tagbuffer (d : Decoder)
    (hval : d.isValid = true) (htag : d.field = some "tag_buffer") :
    deserializeOption d =
      if d.isFlexible then .ok (.vSome, { d with length := none })
      else .ok (.vNone, d) := by
  unfold deserializeOption
  simp [hval, htag]

theorem deserializeOption_string_flex (d : Decoder) (L : Nat) (rest : List Nat)
    (hval : d.isValid = true) (htag : (d.field == some "tag_buffer") = false)
    (hrec : d.isRecords = false) (hseq : d.isSequence = false)
    (hstr : d.isString = true) (hflex : d.isFlexible = true)
    (hL : L < 2 ^ 32) (hin : d.input = encVarint L ++ rest) :
    deserializeOption d =
      if L = 0 then
        .ok (.vNone,
          { d with input := rest, pos := d.pos + (encVarint L).length, length := none })
      else
        .ok (.vSome,
          { d with input := rest, pos := d.pos + (encVarint L).length,
                   length := some (L - 1) }) := by
  unfold deserializeOption
  rw [unsignedVarint_enc d L rest hL hin]
  simp only [hval, htag, hrec, hseq, hstr, hflex, Bool.false_eq_true, if_false, if_true]
  by_cases h0 : L = 0
  · simp [h0]
  · simp [h0]

theorem deserializeOption_string_nonflex_some (d : Decoder) (s rest : List Nat)
    (hval : d.isValid = true) (htag : (d.field == some "tag_buffer") = false)
    (hrec : d.isRecords = false) (hseq : d.isSequence = false)
    (hstr : d.isString = true) (hflex : d.isFlexible = false)
    (hlen : s.length < 2 ^ 15) (hin : d.input = encBE2 s.length ++ (s ++ rest)) :
    deserializeOption d =
      .ok (.vSome,
        { d with input := s ++ rest, pos := d.pos + 2, length := some s.length }) := by
  unfold deserializeOption
  have hre := readExact_append d (encBE2 s.length) (s ++ rest) hin
  rw [encBE2_length] at hre
  rw [hre]
  simp only [hval, htag, hrec, hseq, hstr, hflex, Bool.false_eq_true, if_false, if_true]
  rw [beVal_encBE2]
  have hmod : s.length % 2 ^ 16 = s.length := Nat.mod_eq_of_lt (by omega)
  rw [hmod]
  have ht : toInt16 s.length = (s.length : Int) := by
    unfold toInt16
    rw [if_pos (by omega)]
  have h1 : (toInt16 s.length == -1) = false := by
    rw [ht]
    simp only [beq_eq_false_iff_ne, ne_eq]
    omega
  have h2 : ¬ (toInt16 s.length < 0) := by
    rw [ht]
    omega
  simp [h1, h2]

theorem deserializeOption_string_nonflex_null (d : Decoder) (rest : List Nat)
    (hval : d.isValid = true) (htag : (d.field == some "tag_buffer") = false)
    (hrec : d.isRecords = false) (hseq : d.isSequence = false)
    (hstr : d.isString = true) (hflex : d.isFlexible = false)
    (hin : d.input = 255 :: 255 :: rest) :
    deserializeOption d =
      .ok (.vNone, { d with input := rest, pos := d.pos + 2, length := none }) := by
  unfold deserializeOption
  have hre := readExact_append d [255, 255] rest (by simpa using hin)
  norm_num at hre
  rw [hre]
  simp only [hval, htag, hrec, hseq, hstr, hflex, Bool.false_eq_true, if_false, if_true]
  have hb : beVal [255, 255] = 65535 := by decide
  rw [hb]
  have h1 : (toInt16 65535 == -1) = true := by decide
  simp [h1]

end Tansu

namespace Tansu

theorem readMandatory_flex (d : Decoder) (L : Nat) (rest : List Nat)
    (hh : d.inHeader = false) (hnul : d.isNullable = false) (hval : d.isValid = true)
    (hflex : d.isFlexible = true) (hL : L < 2 ^ 32) (hin : d.input = encVarint L ++ rest) :
    readMandatoryNonNullableLength d =
      .ok { d with input := rest, pos := d.pos + (encVarint L).length,
                   length := some ((L + 2 ^ 32 - 1) % 2 ^ 32) } := by
  unfold readMandatoryNonNullableLength
  rw [unsignedVarint_enc d L rest hL hin]
  simp [hh, hnul, hval, hflex]

theorem deserializeString_pending (d : Decoder) (s rest : List Nat)
    (hlen : d.length = some s.length) (hin : d.input = s ++ rest)
    (hu : isUtf8 s = true) :
    deserializeString d =
      .ok (s, { d with input := rest, pos := d.pos + s.length, length := none }) := by
  unfold deserializeString
  have hne : (d.length == none) = false := by simp [hlen]
  rw [hne]
  simp only [Bool.false_eq_true, if_false]
  rw [hlen]
  have hre := readExact_append { d with length := none } s rest (by simpa using hin)
  simp only [hre, hu, if_true]

theorem decodeTagEntries_enc (ts : List (Nat × List Nat)) :
    ∀ (d : Decoder) (rest : List Nat), ts.all tagWF = true →
      d.input = ts.flatMap (fun t => encVarint t.1 ++ encVarint t.2.length ++ t.2) ++ rest →
      decodeTagEntries ts.length d =
        .ok (ts,
          { d with
              input := rest
              pos := d.pos +
                (ts.flatMap (fun t => encVarint t.1 ++ encVarint t.2.length ++ t.2)).length }) := by
  induction ts with
  | nil =>
    intro d rest _ hin
    simp only [List.flatMap_nil, List.nil_append] at hin
    simp only [List.length_nil, decodeTagEntries, List.flatMap_nil, List.length_nil,
      Nat.add_zero]
    rw [← hin]
  | cons t ts ih =>
    intro d rest hwf hin
    simp only [List.all_cons, Bool.and_eq_true] at hwf
    obtain ⟨hwt, hwts⟩ := hwf
    simp only [tagWF, Bool.and_eq_true, decide_eq_true_eq] at hwt
    obtain ⟨hid, hblen⟩ := hwt
    have hin2 : d.input = encVarint t.1 ++ (encVarint t.2.length ++
        (t.2 ++ ((ts.flatMap fun t => encVarint t.1 ++ encVarint t.2.length ++ t.2) ++ rest))) := by
      rw [hin]
      simp [List.append_assoc]
    simp only [List.length_cons, decodeTagEntries]
    have h1 := unsignedVarint_enc d t.1 _ hid hin2
    have h2 := unsignedVarint_enc
      { d with
          input := encVarint t.2.length ++
            (t.2 ++ ((ts.flatMap fun t => encVarint t.1 ++ encVarint t.2.length ++ t.2) ++ rest))
          pos := d.pos + (encVarint t.1).length }
      t.2.length _ hblen rfl
    have h3 := readExact_append
      { d with
          input := t.2 ++
            ((ts.flatMap fun t => encVarint t.1 ++ encVarint t.2.length ++ t.2) ++ rest)
          pos := d.pos + (encVarint t.1).length + (encVarint t.2.length).length }
      t.2 _ rfl
    have h4 := ih
      { d with
          input := (ts.flatMap fun t => encVarint t.1 ++ encVarint t.2.length ++ t.2) ++ rest
          pos := d.pos + (encVarint t.1).length + (encVarint t.2.length).length + t.2.length }
      rest hwts rfl
    simp only [h1, h2, h3, h4]
    simp only [List.flatMap_cons, List.length_append, Except.ok.injEq, Prod.mk.injEq,
      Decoder.mk.injEq, and_true, true_and]
    omega

end Tansu

namespace Tansu

theorem decodeTagBuffer_enc (ts : List (Nat × List Nat)) (d : Decoder) (rest : List Nat)
    (hwf : tagsWF ts = true) (hin : d.input = encTagBuffer ts ++ rest) :
    decodeTagBuffer d =
      .ok (ts, { d with input := rest, pos := d.pos + (encTagBuffer ts).length }) := by
  simp only [tagsWF, Bool.and_eq_true, decide_eq_true_eq] at hwf
  obtain ⟨hcount, hall⟩ := hwf
  unfold decodeTagBuffer
  have hin2 : d.input = encVarint ts.length ++
      ((ts.flatMap fun t => encVarint t.1 ++ encVarint t.2.length ++ t.2) ++ rest) := by
    rw [hin]
    simp [encTagBuffer, List.append_assoc]
  have h1 := unsignedVarint_enc d ts.length _ hcount hin2
  have h2 := decodeTagEntries_enc ts
    { d with
        input := (ts.flatMap fun t => encVarint t.1 ++ encVarint t.2.length ++ t.2) ++ rest
        pos := d.pos + (encVarint ts.length).length }
    rest hall rfl
  simp only [h1, h2]
  simp only [encTagBuffer, List.length_append, Except.ok.injEq, Prod.mk.injEq,
    Decoder.mk.injEq, and_true, true_and]
  omega

theorem deserializeI32_enc (d : Decoder) (v : Nat) (rest : List Nat)
    (hin : d.input = encBE4 v ++ rest) :
    deserializeI32 d =
      .ok (toInt32 (v % 2 ^ 32), { d with input := rest, pos := d.pos + 4 }) := by
  unfold deserializeI32
  have hre := readExact_append d (encBE4 v) rest hin
  rw [encBE4_length] at hre
  simp only [hre, beVal_encBE4]

theorem deserializeI16_plain (d : Decoder) (v : Nat) (rest : List Nat)
    (hin : d.input = encBE2 v ++ rest)
    (hnk : ∀ c, d.containers.head? = some c →
      c ≠ .structC "HeaderMezzanine") :
    deserializeI16 d =
      .ok (toInt16 (v % 2 ^ 16), { d with input := rest, pos := d.pos + 2 }) := by
  unfold deserializeI16
  have hre := readExact_append d (encBE2 v) rest hin
  rw [encBE2_length] at hre
  simp only [hre, beVal_encBE2]
  cases hc : d.containers.head? with
  | none => simp
  | some c =>
    have := hnk c hc
    cases c with
    | enumC nm => simp
    | structC nm =>
      have hnm : nm ≠ "HeaderMezzanine" := by
        intro hEq
        exact this (by rw [hEq])
      simp [hnm]

end Tansu

namespace Tansu

theorem deserializeI16_apiKey18 (d : Decoder) (rest : List Nat)
    (hc : d.containers.head? = some (.structC "HeaderMezzanine"))
    (hf : d.field = some "api_key")
    (hin : d.input = 0 :: 18 :: rest) :
    deserializeI16 d =
      .ok (18,
        { d with
            input := rest
            pos := d.pos + 2
            apiKey := some 18
            metaMessage := some apiVersionsRequestMeta
            parse := apiVersionsRequestMeta.fields :: d.parse }) := by
  unfold deserializeI16
  have hre := readExact_append d [0, 18] rest (by simpa using hin)
  norm_num at hre
  simp only [hre]
  have hb : beVal [0, 18] = 18 := by decide
  have ht : toInt16 18 = 18 := by decide
  have hr : requestsTable 18 = some apiVersionsRequestMeta := by decide
  simp [hc, hf, hb, ht, hr]

theorem deserializeI16_apiVersion3 (d : Decoder) (rest : List Nat)
    (hc : d.containers.head? = some (.structC "HeaderMezzanine"))
    (hf : d.field = some "api_version")
    (hin : d.input = 0 :: 3 :: rest) :
    deserializeI16 d =
      .ok (3, { d with input := rest, pos := d.pos + 2, apiVersion := some 3 }) := by
  unfold deserializeI16
  have hre := readExact_append d [0, 3] rest (by simpa using hin)
  norm_num at hre
  simp only [hre]
  have hb : beVal [0, 3] = 3 := by decide
  have ht : toInt16 3 = 3 := by decide
  simp [hc, hf, hb, ht]

theorem decodeOptString_nonflex (d : Decoder) (s : Option (List Nat)) (rest : List Nat)
    (hval : d.isValid = true) (htag : (d.field == some "tag_buffer") = false)
    (hrec : d.isRecords = false) (hseq : d.isSequence = false)
    (hstr : d.isString = true) (hflex : d.isFlexible = false)
    (hwf : ∀ bs, s = some bs → bs.length < 2 ^ 15 ∧ isUtf8 bs = true)
    (hin : d.input = encClientId s ++ rest) :
    decodeOptString d =
      .ok (s,
        { d with
            input := rest
            pos := d.pos + (encClientId s).length
            length := none }) := by
  cases s with
  | none =>
    simp only [encClientId] at hin ⊢
    have h1 := deserializeOption_string_nonflex_null d rest hval htag hrec hseq hstr hflex
      (by simpa using hin)
    unfold decodeOptString
    simp only [h1]
    norm_num
  | some bs =>
    obtain ⟨hlen, hu⟩ := hwf bs rfl
    simp only [encClientId, List.append_assoc] at hin
    have h1 := deserializeOption_string_nonflex_some d bs rest hval htag hrec hseq hstr hflex
      hlen hin
    have h2 := deserializeString_pending
      { d with input := bs ++ rest, pos := d.pos + 2, length := some bs.length }
      bs rest rfl rfl hu
    unfold decodeOptString
    simp only [h1, h2]
    simp only [encClientId, List.length_append, encBE2_length, Except.ok.injEq,
      Prod.mk.injEq, Decoder.mk.injEq, and_true, true_and]
    omega

theorem decodeOptString_flex (d : Decoder) (s : Option (List Nat)) (rest : List Nat)
    (hval : d.isValid = true) (htag : (d.field == some "tag_buffer") = false)
    (hrec : d.isRecords = false) (hseq : d.isSequence = false)
    (hstr : d.isString = true) (hflex : d.isFlexible = true)
    (hwf : ∀ bs, s = some bs → strWF bs = true)
    (hin : d.input = encCompactString s ++ rest) :
    decodeOptString d =
      .ok (s,
        { d with
            input := rest
            pos := d.pos + (encCompactString s).length
            length := none }) := by
  cases s with
  | none =>
    simp only [encCompactString] at hin ⊢
    have h0 : ([0] : List Nat) = encVarint 0 := by decide
    rw [h0] at hin
    have h1 := deserializeOption_string_flex d 0 rest hval htag hrec hseq hstr hflex
      (by norm_num) hin
    norm_num at h1
    unfold decodeOptString
    simp only [h1]
    have hl : (encVarint 0).length = 1 := by decide
    simp [hl]
  | some bs =>
    have hwf2 := hwf bs rfl
    simp only [strWF, Bool.and_eq_true, decide_eq_true_eq] at hwf2
    obtain ⟨hu, hlen⟩ := hwf2
    simp only [encCompactString, List.append_assoc] at hin
    have h1 := deserializeOption_string_flex d (bs.length + 1) _ hval htag hrec hseq hstr
      hflex hlen hin
    rw [if_neg (by omega)] at h1
    have hminus : bs.length + 1 - 1 = bs.length := by omega
    rw [hminus] at h1
    have h2 := deserializeString_pending
      { d with
          input := bs ++ rest
          pos := d.pos + (encVarint (bs.length + 1)).length
          length := some bs.length }
      bs rest rfl rfl hu
    unfold decodeOptString
    simp only [h1, h2]
    simp only [encCompactString, List.length_append, Except.ok.injEq,
      Prod.mk.injEq, Decoder.mk.injEq, and_true, true_and]
    omega

theorem decodeOptTagBuffer_flex (d : Decoder) (ts : List (Nat × List Nat)) (rest : List Nat)
    (hval : d.isValid = true) (hf : d.field = some "tag_buffer")
    (hflex : d.isFlexible = true) (hwf : tagsWF ts = true)
    (hin : d.input = encTagBuffer ts ++ rest) :
    decodeOptTagBuffer d =
      .ok (some ts,
        { d with
            input := rest
            pos := d.pos + (encTagBuffer ts).length
            length := none }) := by
  have h1 := deserializeOption_tagbuffer d hval hf
  rw [if_pos hflex] at h1
  have h2 := decodeTagBuffer_enc ts { d with length := none } rest hwf hin
  unfold decodeOptTagBuffer
  simp only [h1, h2]

end Tansu

namespace Tansu

theorem decode_encode_roundtrip (f : ReqFrame) (h : f.wf = true) :
    decodeRequestFrame (encodeRequestFrame f) = .ok f := by
  obtain ⟨ak, av, corr, cid, hts0, csn, csv, bts0⟩ := f
  simp only [ReqFrame.wf, Bool.and_eq_true, beq_iff_eq, decide_eq_true_eq] at h
  obtain ⟨⟨⟨⟨⟨⟨⟨⟨hak, hav⟩, hc1⟩, hc2⟩, hcid⟩, hht⟩, hcsn⟩, hcsv⟩, hbt⟩ := h
  subst hak
  subst hav
  cases hts0 with
  | none => simp at hht
  | some hts =>
  cases bts0 with
  | none => simp at hbt
  | some bts =>
  have hhts : tagsWF hts = true := hht
  have hbts : tagsWF bts = true := hbt
  have hcidP : ∀ bs, cid = some bs → bs.length < 2 ^ 15 ∧ isUtf8 bs = true := by
    intro bs hEq
    subst hEq
    simpa using hcid
  have hcsnP : ∀ bs, csn = some bs → strWF bs = true := by
    intro bs hEq
    subst hEq
    exact hcsn
  have hcsvP : ∀ bs, csv = some bs → strWF bs = true := by
    intro bs hEq
    subst hEq
    exact hcsv
  clear hcid hcsn hcsv hht hbt
  have e1 : encBE2 (toRaw16 18) = [0, 18] := by decide
  have e2 : encBE2 (toRaw16 3) = [0, 3] := by decide
  simp only [decodeRequestFrame, encodeRequestFrame, Decoder.request, fieldStep,
    encOptTagBuffer, e1, e2, List.head?_nil, List.head?_cons,
    List.append_assoc, List.cons_append, List.nil_append]
  generalize (0 :: 18 :: 0 :: 3 ::
    (encBE4 (toRaw32 corr) ++ (encClientId cid ++ (encTagBuffer hts ++
      (encCompactString csn ++ (encCompactString csv ++ encTagBuffer bts)))))).length = N
  have s1 := deserializeI32_enc
    { input := encBE4 N ++ 0 :: 18 :: 0 :: 3 ::
        (encBE4 (toRaw32 corr) ++ (encClientId cid ++ (encTagBuffer hts ++
          (encCompactString csn ++ (encCompactString csv ++ encTagBuffer bts)))))
      pos := 0
      containers := [.structC "Frame"]
      field := some "size"
      kind := some .request
      apiKey := none
      apiVersion := none
      metaMessage := none
      metaField := none
      parse := []
      length := none
      inSeqOfPrimitive := false
      inRecords := false }
    N
    (0 :: 18 :: 0 :: 3 ::
      (encBE4 (toRaw32 corr) ++ (encClientId cid ++ (encTagBuffer hts ++
        (encCompactString csn ++ (encCompactString csv ++ encTagBuffer bts))))))
    rfl
  simp only [s1, Nat.reduceAdd, List.head?_nil, List.head?_cons]
  have s2 := deserializeI16_apiKey18
    { input := 0 :: 18 :: 0 :: 3 ::
        (encBE4 (toRaw32 corr) ++ (encClientId cid ++ (encTagBuffer hts ++
          (encCompactString csn ++ (encCompactString csv ++ encTagBuffer bts)))))
      pos := 4
      containers := [.structC "HeaderMezzanine", .enumC "HeaderMezzanine", .structC "Frame"]
      field := some "api_key"
      kind := some .request
      apiKey := none
      apiVersion := none
      metaMessage := none
      metaField := none
      parse := []
      length := none
      inSeqOfPrimitive := false
      inRecords := false }
    (0 :: 3 ::
      (encBE4 (toRaw32 corr) ++ (encClientId cid ++ (encTagBuffer hts ++
        (encCompactString csn ++ (encCompactString csv ++ encTagBuffer bts))))))
    rfl rfl rfl
  have hfindAV : Option.map Prod.snd
      (List.find? (fun p => p.1 == "api_version") apiVersionsRequestMeta.fields) = none := by
    decide
  simp only [s2, Nat.reduceAdd, List.head?_nil, List.head?_cons, hfindAV]
  have s3 := deserializeI16_apiVersion3
    { input := 0 :: 3 ::
        (encBE4 (toRaw32 corr) ++ (encClientId cid ++ (encTagBuffer hts ++
          (encCompactString csn ++ (encCompactString csv ++ encTagBuffer bts)))))
      pos := 6
      containers := [.structC "HeaderMezzanine", .enumC "HeaderMezzanine", .structC "Frame"]
      field := some "api_version"
      kind := some .request
      apiKey := some 18
      apiVersion := none
      metaMessage := some apiVersionsRequestMeta
      metaField := none
      parse := [apiVersionsRequestMeta.fields]
      length := none
      inSeqOfPrimitive := false
      inRecords := false }
    (encBE4 (toRaw32 corr) ++ (encClientId cid ++ (encTagBuffer hts ++
      (encCompactString csn ++ (encCompactString csv ++ encTagBuffer bts)))))
    rfl rfl rfl
  have hfindCorr : Option.map Prod.snd
      (List.find? (fun p => p.1 == "correlation_id") apiVersionsRequestMeta.fields) = none := by
    decide
  simp only [s3, Nat.reduceAdd, List.head?_nil, List.head?_cons, hfindCorr]
  have hcorr : toInt32 (toRaw32 corr % 2 ^ 32) = corr := by
    unfold toRaw32 toInt32
    split <;> omega
  have s4 := deserializeI32_enc
    { input := encBE4 (toRaw32 corr) ++ (encClientId cid ++ (encTagBuffer hts ++
        (encCompactString csn ++ (encCompactString csv ++ encTagBuffer bts))))
      pos := 8
      containers := [.structC "HeaderMezzanine", .enumC "HeaderMezzanine", .structC "Frame"]
      field := some "correlation_id"
      kind := some .request
      apiKey := some 18
      apiVersion := some 3
      metaMessage := some apiVersionsRequestMeta
      metaField := none
      parse := [apiVersionsRequestMeta.fields]
      length := none
      inSeqOfPrimitive := false
      inRecords := false }
    (toRaw32 corr)
    (encClientId cid ++ (encTagBuffer hts ++
      (encCompactString csn ++ (encCompactString csv ++ encTagBuffer bts))))
    rfl
  have hfindCid : Option.map Prod.snd
      (List.find? (fun p => p.1 == "client_id") apiVersionsRequestMeta.fields) = none := by
    decide
  simp only [s4, hcorr, Nat.reduceAdd, List.head?_nil, List.head?_cons, hfindCid]
  have s5 := decodeOptString_nonflex
    { input := encClientId cid ++ (encTagBuffer hts ++
        (encCompactString csn ++ (encCompactString csv ++ encTagBuffer bts)))
      pos := 12
      containers := [.structC "HeaderMezzanine", .enumC "HeaderMezzanine", .structC "Frame"]
      field := some "client_id"
      kind := some .request
      apiKey := some 18
      apiVersion := some 3
      metaMessage := some apiVersionsRequestMeta
      metaField := none
      parse := [apiVersionsRequestMeta.fields]
      length := none
      inSeqOfPrimitive := false
      inRecords := false }
    cid
    (encTagBuffer hts ++ (encCompactString csn ++ (encCompactString csv ++ encTagBuffer bts)))
    rfl rfl rfl rfl rfl rfl hcidP rfl
  have hfindTB : Option.map Prod.snd
      (List.find? (fun p => p.1 == "tag_buffer") apiVersionsRequestMeta.fields) = none := by
    decide
  simp only [s5, Nat.reduceAdd, List.head?_nil, List.head?_cons, hfindTB]
  have s6 := decodeOptTagBuffer_flex
    { input := encTagBuffer hts ++
        (encCompactString csn ++ (encCompactString csv ++ encTagBuffer bts))
      pos := 12 + (encClientId cid).length
      containers := [.structC "HeaderMezzanine", .enumC "HeaderMezzanine", .structC "Frame"]
      field := some "tag_buffer"
      kind := some .request
      apiKey := some 18
      apiVersion := some 3
      metaMessage := some apiVersionsRequestMeta
      metaField := none
      parse := [apiVersionsRequestMeta.fields]
      length := none
      inSeqOfPrimitive := false
      inRecords := false }
    hts
    (encCompactString csn ++ (encCompactString csv ++ encTagBuffer bts))
    rfl rfl rfl hhts rfl
  have hfindBody : Option.map Prod.snd
      (List.find? (fun p => p.1 == "body") apiVersionsRequestMeta.fields) = none := by
    decide
  have hfindCSN : Option.map Prod.snd
      (List.find? (fun p => p.1 == "client_software_name") apiVersionsRequestMeta.fields) =
        some ⟨⟨3, none⟩, neverRange, .stringK⟩ := by
    decide
  simp only [s6, Nat.reduceAdd, List.head?_nil, List.head?_cons, hfindBody,
    List.drop_succ_cons, List.drop_zero, hfindCSN]
  have s7 := decodeOptString_flex
    { input := encCompactString csn ++ (encCompactString csv ++ encTagBuffer bts)
      pos := 12 + (encClientId cid).length + (encTagBuffer hts).length
      containers := [.structC "Body", .enumC "Body", .structC "Frame"]
      field := some "client_software_name"
      kind := some .request
      apiKey := some 18
      apiVersion := some 3
      metaMessage := some apiVersionsRequestMeta
      metaField := some ⟨⟨3, none⟩, neverRange, .stringK⟩
      parse := [apiVersionsRequestMeta.fields, apiVersionsRequestMeta.fields]
      length := none
      inSeqOfPrimitive := false
      inRecords := false }
    csn
    (encCompactString csv ++ encTagBuffer bts)
    rfl rfl rfl rfl rfl rfl hcsnP rfl
  have hfindCSV : Option.map Prod.snd
      (List.find? (fun p => p.1 == "client_software_version") apiVersionsRequestMeta.fields) =
        some ⟨⟨3, none⟩, neverRange, .stringK⟩ := by
    decide
  simp only [s7, Nat.reduceAdd, List.head?_nil, List.head?_cons, hfindCSV]
  have s8 := decodeOptString_flex
    { input := encCompactString csv ++ encTagBuffer bts
      pos := 12 + (encClientId cid).length + (encTagBuffer hts).length +
        (encCompactString csn).length
      containers := [.structC "Body", .enumC "Body", .structC "Frame"]
      field := some "client_software_version"
      kind := some .request
      apiKey := some 18
      apiVersion := some 3
      metaMessage := some apiVersionsRequestMeta
      metaField := some ⟨⟨3, none⟩, neverRange, .stringK⟩
      parse := [apiVersionsRequestMeta.fields, apiVersionsRequestMeta.fields]
      length := none
      inSeqOfPrimitive := false
      inRecords := false }
    csv
    (encTagBuffer bts)
    rfl rfl rfl rfl rfl rfl hcsvP rfl
  simp only [s8, Nat.reduceAdd, List.head?_nil, List.head?_cons, hfindTB]
  have s9 := decodeOptTagBuffer_flex
    { input := encTagBuffer bts
      pos := 12 + (encClientId cid).length + (encTagBuffer hts).length +
        (encCompactString csn).length + (encCompactString csv).length
      containers := [.structC "Body", .enumC "Body", .structC "Frame"]
      field := some "tag_buffer"
      kind := some .request
      apiKey := some 18
      apiVersion := some 3
      metaMessage := some apiVersionsRequestMeta
      metaField := none
      parse := [apiVersionsRequestMeta.fields, apiVersionsRequestMeta.fields]
      length := none
      inSeqOfPrimitive := false
      inRecords := false }
    bts
    []
    rfl rfl rfl hbts (by simp)
  simp only [s9, Nat.reduceAdd]
  rfl

end Tansu

namespace Tansu

theorem consumes_readExact (n : Nat) : Consumes (readExact n) := by
  intro d x d2 h
  unfold readExact at h
  split at h
  · injection h with h1
    injection h1 with hx hd
    subst hd
    refine ⟨d.input.take n, ?_, ?_⟩
    · exact (List.take_append_drop n d.input).symm
    · simp [List.length_take]
      omega
  · exact absurd h (by simp)

theorem uvarintAux_consumes :
    ∀ (l : List Nat) (shift acc v k : Nat) (r : List Nat),
      uvarintAux l shift acc = some (v, k, r) →
        ∃ t, l = t ++ r ∧ t.length = k := by
  intro l
  induction l with
  | nil =>
    intro shift acc v k r h
    simp [uvarintAux] at h
  | cons b rest ih =>
    intro shift acc v k r h
    unfold uvarintAux at h
    split at h
    · cases hrec : uvarintAux rest ((shift + 7) % 256)
          ((acc + ((b &&& 127) <<< (shift % 32))) % 2 ^ 32) with
      | none => rw [hrec] at h; exact absurd h (by simp)
      | some w =>
        obtain ⟨v', k', r'⟩ := w
        rw [hrec] at h
        injection h with h1
        injection h1 with hv h2
        injection h2 with hk hr
        subst hv hk hr
        obtain ⟨t, ht, hlen⟩ := ih _ _ _ _ _ hrec
        exact ⟨b :: t, by simp [ht], by simp [hlen]⟩
    · injection h with h1
      injection h1 with hv h2
      injection h2 with hk hr
      subst hv hk hr
      exact ⟨[b], by simp, by simp⟩

theorem consumes_unsignedVarint : Consumes Decoder.unsignedVarint := by
  intro d x d2 h
  unfold Decoder.unsignedVarint at h
  cases hu : uvarintAux d.input 0 0 with
  | none => rw [hu] at h; exact absurd h (by simp)
  | some w =>
    obtain ⟨v, k, r⟩ := w
    rw [hu] at h
    injection h with h1
    injection h1 with hx hd
    subst hd
    obtain ⟨t, ht, hlen⟩ := uvarintAux_consumes d.input 0 0 v k r hu
    exact ⟨t, by simpa using ht, by simp [hlen]⟩

theorem consumes_step {d d1 d2 : Decoder}
    (h1 : ∃ t, d.input = t ++ d1.input ∧ d1.pos = d.pos + t.length)
    (h2 : ∃ t, d1.input = t ++ d2.input ∧ d2.pos = d1.pos + t.length) :
    ∃ t, d.input = t ++ d2.input ∧ d2.pos = d.pos + t.length := by
  obtain ⟨t1, ha, hb⟩ := h1
  obtain ⟨t2, hc, hd⟩ := h2
  refine ⟨t1 ++ t2, ?_, ?_⟩
  · simp [ha, hc, List.append_assoc]
  · simp [hb, hd, List.length_append]
    omega

theorem consumes_deserializeI32 : Consumes deserializeI32 := by
  intro d x d2 h
  unfold deserializeI32 at h
  cases hre : readExact 4 d with
  | error e => rw [hre] at h; exact absurd h (by simp)
  | ok w =>
    obtain ⟨bs, d1⟩ := w
    rw [hre] at h
    dsimp only at h
    injection h with h1
    injection h1 with hx hd
    subst hd
    exact consumes_readExact 4 d bs _ hre

theorem consumes_deserializeI16 : Consumes deserializeI16 := by
  intro d x d2 h
  unfold deserializeI16 at h
  cases hre : readExact 2 d with
  | error e => rw [hre] at h; exact absurd h (by simp)
  | ok w =>
    obtain ⟨bs, d1⟩ := w
    rw [hre] at h
    dsimp only at h
    obtain ⟨t, ht, hp⟩ := consumes_readExact 2 d bs d1 hre
    split at h
    · split at h
      · injection h with h1
        injection h1 with hx hd
        subst hd
        exact ⟨t, by simpa using ht, by simpa using hp⟩
      · injection h with h1
        injection h1 with hx hd
        subst hd
        exact ⟨t, by simpa using ht, by simpa using hp⟩
    · injection h with h1
      injection h1 with hx hd
      subst hd
      exact ⟨t, by simpa using ht, by simpa using hp⟩
    · injection h with h1
      injection h1 with hx hd
      subst hd
      exact ⟨t, by simpa using ht, by simpa using hp⟩

theorem consumes0_readMandatory : Consumes0 readMandatoryNonNullableLength := by
  intro d d2 h
  unfold readMandatoryNonNullableLength at h
  split at h
  · injection h with hd
    subst hd
    exact ⟨[], by simp, by simp⟩
  · split at h
    · cases hu : d.unsignedVarint with
      | error e => rw [hu] at h; exact absurd h (by simp)
      | ok w =>
        obtain ⟨l, d1⟩ := w
        rw [hu] at h
        dsimp only at h
        injection h with hd
        subst hd
        obtain ⟨t, ht, hp⟩ := consumes_unsignedVarint d l d1 hu
        exact ⟨t, by simpa using ht, by simpa using hp⟩
    · split at h
      · cases hre : readExact 2 d with
        | error e => rw [hre] at h; exact absurd h (by simp)
        | ok w =>
          obtain ⟨bs, d1⟩ := w
          rw [hre] at h
          dsimp only at h
          split at h
          · exact absurd h (by simp)
          · injection h with hd
            subst hd
            obtain ⟨t, ht, hp⟩ := consumes_readExact 2 d bs d1 hre
            exact ⟨t, by simpa using ht, by simpa using hp⟩
      · cases hre : readExact 4 d with
        | error e => rw [hre] at h; exact absurd h (by simp)
        | ok w =>
          obtain ⟨bs, d1⟩ := w
          rw [hre] at h
          dsimp only at h
          split at h
          · exact absurd h (by simp)
          · injection h with hd
            subst hd
            obtain ⟨t, ht, hp⟩ := consumes_readExact 4 d bs d1 hre
            exact ⟨t, by simpa using ht, by simpa using hp⟩

theorem consumes_deserializeString : Consumes deserializeString := by
  intro d x d2 h
  unfold deserializeString at h
  cases hm : (if d.length == none then readMandatoryNonNullableLength d else .ok d) with
  | error e => rw [hm] at h; exact absurd h (by simp)
  | ok d1 =>
    rw [hm] at h
    dsimp only at h
    have step1 : ∃ t, d.input = t ++ d1.input ∧ d1.pos = d.pos + t.length := by
      split at hm
      · exact consumes0_readMandatory d d1 hm
      · injection hm with hd
        subst hd
        exact ⟨[], by simp, by simp⟩
    cases hl : d1.length with
    | none => rw [hl] at h; exact absurd h (by simp)
    | some len =>
      rw [hl] at h
      dsimp only at h
      cases hre : readExact len { d1 with length := none } with
      | error e => rw [hre] at h; exact absurd h (by simp)
      | ok w =>
        obtain ⟨bs, d3⟩ := w
        rw [hre] at h
        dsimp only at h
        split at h
        · injection h with h1
          injection h1 with hx hd
          subst hd
          obtain ⟨t2, ht2, hp2⟩ := consumes_readExact len { d1 with length := none } bs _ hre
          exact consumes_step step1 ⟨t2, by simpa using ht2, by simpa using hp2⟩
        · exact absurd h (by simp)

theorem consumes_deserializeBytes : Consumes deserializeBytes := by
  intro d x d2 h
  unfold deserializeBytes at h
  cases hm : (if d.isFlexible then
          match d.unsignedVarint with
          | .ok (l, d') => .ok (((l + 2 ^ 32 - 1) % 2 ^ 32 : Nat), d')
          | .error e => .error e
        else
          match readExact 4 d with
          | .ok (bs, d') => .ok (beVal bs, d')
          | .error e => .error e : Except DErr (Nat × Decoder)) with
  | error e => rw [hm] at h; exact absurd h (by simp)
  | ok w =>
    obtain ⟨len, d1⟩ := w
    rw [hm] at h
    have step1 : ∃ t, d.input = t ++ d1.input ∧ d1.pos = d.pos + t.length := by
      split at hm
      · cases hu : d.unsignedVarint with
        | error e => rw [hu] at hm; exact absurd hm (by simp)
        | ok w2 =>
          obtain ⟨l, d1'⟩ := w2
          rw [hu] at hm
          dsimp only at hm
          injection hm with h1
          injection h1 with hl hd
          subst hd
          exact consumes_unsignedVarint d l _ hu
      · cases hre : readExact 4 d with
        | error e => rw [hre] at hm; exact absurd hm (by simp)
        | ok w2 =>
          obtain ⟨bs, d1'⟩ := w2
          rw [hre] at hm
          dsimp only at hm
          injection hm with h1
          injection h1 with hl hd
          subst hd
          exact consumes_readExact 4 d bs _ hre
    exact consumes_step step1 (consumes_readExact len d1 x d2 h)

end Tansu

namespace Tansu

theorem consumes_lenExpr (d : Decoder) (len : Nat) (d1 : Decoder)
    (heq : (if d.isFlexible then
            match d.unsignedVarint with
            | .ok (l, d') => .ok (((l + 2 ^ 32 - 1) % 2 ^ 32 : Nat), d')
            | .error e => .error e
          else
            match readExact 4 d with
            | .ok (bs, d') => .ok (beVal bs, d')
            | .error e => .error e : Except DErr (Nat × Decoder)) = .ok (len, d1)) :
    ∃ t, d.input = t ++ d1.input ∧ d1.pos = d.pos + t.length := by
  split at heq
  · cases hu : d.unsignedVarint with
    | error e2 => rw [hu] at heq; exact absurd heq (by simp)
    | ok w =>
      obtain ⟨l, d1'⟩ := w
      rw [hu] at heq
      dsimp only at heq
      injection heq with h1
      injection h1 with hl hd
      subst hd
      exact consumes_unsignedVarint d l _ hu
  · cases hre : readExact 4 d with
    | error e2 => rw [hre] at heq; exact absurd heq (by simp)
    | ok w =>
      obtain ⟨bs, d1'⟩ := w
      rw [hre] at heq
      dsimp only at heq
      injection heq with h1
      injection h1 with hl hd
      subst hd
      exact consumes_readExact 4 d bs _ hre

theorem consumes_deserializeOption : Consumes deserializeOption := by
  intro d x d2 h
  unfold deserializeOption at h
  split at h
  · split at h
    · split at h
      · injection h with h1
        injection h1 with hx hd
        subst hd
        exact ⟨[], by simp, by simp⟩
      · injection h with h1
        injection h1 with hx hd
        subst hd
        exact ⟨[], by simp, by simp⟩
    · split at h
      · -- records branch
        split at h
        · exact absurd h (by simp)
        · next len d1 heq =>
            have step1 := consumes_lenExpr d len d1 heq
            obtain ⟨t, ht, hp⟩ := step1
            split at h
            · injection h with h1
              injection h1 with hx hd
              subst hd
              exact ⟨t, ht, hp⟩
            · injection h with h1
              injection h1 with hx hd
              subst hd
              exact ⟨t, by simpa using ht, by simpa using hp⟩
      · split at h
        · -- sequence branch
          split at h
          · split at h
            · exact absurd h (by simp)
            · next l d1 heq =>
                obtain ⟨t, ht, hp⟩ := consumes_unsignedVarint d l d1 heq
                split at h
                · injection h with h1
                  injection h1 with hx hd
                  subst hd
                  exact ⟨t, by simpa using ht, by simpa using hp⟩
                · injection h with h1
                  injection h1 with hx hd
                  subst hd
                  exact ⟨t, by simpa using ht, by simpa using hp⟩
          · split at h
            · exact absurd h (by simp)
            · next bs d1 heq =>
                obtain ⟨t, ht, hp⟩ := consumes_readExact 4 d bs d1 heq
                split at h
                · injection h with h1
                  injection h1 with hx hd
                  subst hd
                  exact ⟨t, by simpa using ht, by simpa using hp⟩
                · split at h
                  · exact absurd h (by simp)
                  · injection h with h1
                    injection h1 with hx hd
                    subst hd
                    exact ⟨t, by simpa using ht, by simpa using hp⟩
        · split at h
          · -- string branch
            split at h
            · split at h
              · exact absurd h (by simp)
              · next l d1 heq =>
                  obtain ⟨t, ht, hp⟩ := consumes_unsignedVarint d l d1 heq
                  split at h
                  · injection h with h1
                    injection h1 with hx hd
                    subst hd
                    exact ⟨t, by simpa using ht, by simpa using hp⟩
                  · injection h with h1
                    injection h1 with hx hd
                    subst hd
                    exact ⟨t, by simpa using ht, by simpa using hp⟩
            · split at h
              · exact absurd h (by simp)
              · next bs d1 heq =>
                  obtain ⟨t, ht, hp⟩ := consumes_readExact 2 d bs d1 heq
                  split at h
                  · injection h with h1
                    injection h1 with hx hd
                    subst hd
                    exact ⟨t, by simpa using ht, by simpa using hp⟩
                  · split at h
                    · exact absurd h (by simp)
                    · injection h with h1
                      injection h1 with hx hd
                      subst hd
                      exact ⟨t, by simpa using ht, by simpa using hp⟩
          · injection h with h1
            injection h1 with hx hd
            subst hd
            exact ⟨[], by simp, by simp⟩
  · injection h with h1
    injection h1 with hx hd
    subst hd
    exact ⟨[], by simp, by simp⟩

end Tansu

namespace Tansu

theorem consumes_decodeTagEntries (n : Nat) : Consumes (decodeTagEntries n) := by
  induction n with
  | zero =>
    intro d x d2 h
    unfold decodeTagEntries at h
    injection h with h1
    injection h1 with hx hd
    subst hd
    exact ⟨[], by simp, by simp⟩
  | succ n ih =>
    intro d x d2 h
    unfold decodeTagEntries at h
    cases hu : d.unsignedVarint with
    | error e => rw [hu] at h; exact absurd h (by simp)
    | ok w =>
      obtain ⟨tagId, d1⟩ := w
      rw [hu] at h
      dsimp only at h
      cases hu2 : d1.unsignedVarint with
      | error e => rw [hu2] at h; exact absurd h (by simp)
      | ok w2 =>
        obtain ⟨len, d2'⟩ := w2
        rw [hu2] at h
        dsimp only at h
        cases hre : readExact len d2' with
        | error e => rw [hre] at h; exact absurd h (by simp)
        | ok w3 =>
          obtain ⟨bs, d3⟩ := w3
          rw [hre] at h
          dsimp only at h
          cases hrec : decodeTagEntries n d3 with
          | error e => rw [hrec] at h; exact absurd h (by simp)
          | ok w4 =>
            obtain ⟨ts, d4⟩ := w4
            rw [hrec] at h
            dsimp only at h
            injection h with h1
            injection h1 with hx hd
            subst hd
            exact consumes_step (consumes_unsignedVarint d tagId d1 hu)
              (consumes_step (consumes_unsignedVarint d1 len d2' hu2)
                (consumes_step (consumes_readExact len d2' bs d3 hre)
                  (ih d3 ts _ hrec)))

theorem consumes_decodeTagBuffer : Consumes decodeTagBuffer := by
  intro d x d2 h
  unfold decodeTagBuffer at h
  cases hu : d.unsignedVarint with
  | error e => rw [hu] at h; exact absurd h (by simp)
  | ok w =>
    obtain ⟨n, d1⟩ := w
    rw [hu] at h
    dsimp only at h
    exact consumes_step (consumes_unsignedVarint d n d1 hu)
      (consumes_decodeTagEntries n d1 x d2 h)

end Tansu

namespace Tansu

theorem decDigitsF_congr (m : Nat) :
    ∀ f1 f2, m < f1 → m < f2 → decDigitsF f1 m = decDigitsF f2 m := by
  induction m using Nat.strong_induction_on with
  | _ m ih =>
    intro f1 f2 h1 h2
    match f1, f2 with
    | g1 + 1, g2 + 1 =>
      simp only [decDigitsF]
      by_cases hm : m < 10
      · simp [hm]
      · simp only [hm, if_false]
        rw [ih (m / 10) (by omega) g1 g2 (by omega) (by omega)]

theorem decDigitsAux_unfold (n : Nat) :
    decDigitsAux n = if n < 10 then [48 + n] else (48 + n % 10) :: decDigitsAux (n / 10) := by
  show decDigitsF (n + 1) n = _
  simp only [decDigitsF]
  by_cases hn : n < 10
  · simp [hn]
  · simp only [hn, if_false]
    rw [decDigitsF_congr (n / 10) n (n / 10 + 1) (by omega) (by omega)]
    rfl

theorem decDigitsAux_length (k : Nat) :
    ∀ n, n < 10 ^ (k + 1) → (decDigitsAux n).length ≤ k + 1 := by
  induction k with
  | zero =>
    intro n hn
    rw [decDigitsAux_unfold]
    rw [if_pos (by omega)]
    simp
  | succ k ih =>
    intro n hn
    rw [decDigitsAux_unfold]
    by_cases h10 : n < 10
    · rw [if_pos h10]
      simp
    · rw [if_neg h10]
      simp only [List.length_cons]
      have hd := ih (n / 10) (by
        have hpow : 10 ^ (k + 1 + 1) = 10 ^ (k + 1) * 10 := by ring
        rw [hpow] at hn
        omega)
      omega

theorem parseNatDigitsAux_append (xs ys : List Nat) :
    ∀ acc, parseNatDigitsAux (xs ++ ys) acc =
      match parseNatDigitsAux xs acc with
      | some a => parseNatDigitsAux ys a
      | none => none := by
  induction xs with
  | nil => intro acc; simp [parseNatDigitsAux]
  | cons b r ih =>
    intro acc
    simp only [List.cons_append, parseNatDigitsAux]
    by_cases hb : 48 ≤ b ∧ b ≤ 57
    · simp only [hb, if_pos, if_true]
      exact ih _
    · simp [hb]

theorem parse_decDigits (n : Nat) :
    ∀ acc, parseNatDigitsAux (natToDec n) acc =
      some (acc * 10 ^ (decDigitsAux n).length + n) := by
  induction n using Nat.strong_induction_on with
  | _ n ih =>
    intro acc
    unfold natToDec
    rw [decDigitsAux_unfold]
    by_cases hn : n < 10
    · simp only [hn, if_true, List.reverse_singleton, parseNatDigitsAux]
      rw [if_pos (by omega)]
      simp only [parseNatDigitsAux, Option.some.injEq, List.length_cons, List.length_nil]
      omega
    · simp only [hn, if_false, List.reverse_cons, List.length_cons]
      rw [parseNatDigitsAux_append]
      rw [show (decDigitsAux (n / 10)).reverse = natToDec (n / 10) from rfl]
      rw [ih (n / 10) (by omega) acc]
      simp only [parseNatDigitsAux]
      rw [if_pos (by omega)]
      have h1 : 48 + n % 10 - 48 = n % 10 := by omega
      have heq : (acc * 10 ^ (decDigitsAux (n / 10)).length + n / 10) * 10 + n % 10
          = acc * 10 ^ ((decDigitsAux (n / 10)).length + 1) + n := by
        calc (acc * 10 ^ (decDigitsAux (n / 10)).length + n / 10) * 10 + n % 10
            = acc * (10 ^ (decDigitsAux (n / 10)).length * 10) + (n / 10 * 10 + n % 10) := by
              ring
          _ = acc * 10 ^ ((decDigitsAux (n / 10)).length + 1) + n := by
              rw [← Nat.pow_succ]
              congr 1
              omega
      rw [h1, heq]

theorem parse_zeros (k : Nat) (ds : List Nat) :
    parseNatDigitsAux (List.replicate k 48 ++ ds) 0 = parseNatDigitsAux ds 0 := by
  induction k with
  | zero => simp
  | succ k ih =>
    simp only [List.replicate_succ, List.cons_append, parseNatDigitsAux]
    rw [if_pos (by omega)]
    simpa using ih

end Tansu

namespace Tansu

theorem decDigitsAux_bounds (n : Nat) : ∀ b ∈ decDigitsAux n, 48 ≤ b ∧ b ≤ 57 := by
  induction n using Nat.strong_induction_on with
  | _ n ih =>
    rw [decDigitsAux_unfold]
    by_cases hn : n < 10
    · rw [if_pos hn]
      intro b hb
      simp at hb
      omega
    · rw [if_neg hn]
      intro b hb
      rcases List.mem_cons.mp hb with h | h
      · have : n % 10 < 10 := Nat.mod_lt _ (by omega)
        omega
      · exact ih (n / 10) (by omega) b h

theorem decDigitsAux_ne_nil (n : Nat) : decDigitsAux n ≠ [] := by
  rw [decDigitsAux_unfold]
  by_cases hn : n < 10
  · simp [hn]
  · simp [hn]

theorem parse_pad (k p : Nat) :
    parseNatDigitsAux (List.replicate k 48 ++ natToDec p) 0 = some p := by
  rw [parse_zeros, parse_decDigits p 0]
  simp

theorem i32FromStr_pad (p : Nat) (hp : p ≤ 2147483647) :
    ∀ k, i32FromStr (List.replicate k 48 ++ natToDec p) = some (p : Int) := by
  intro k
  cases hs : List.replicate k 48 ++ natToDec p with
  | nil =>
    have hl := congrArg List.length hs
    simp only [List.length_append, List.length_replicate, List.length_nil] at hl
    have hne : natToDec p ≠ [] := by
      unfold natToDec
      simp [decDigitsAux_ne_nil p]
    have hz : (natToDec p).length = 0 := by omega
    exact absurd (List.length_eq_zero.mp hz) hne
  | cons b r =>
    have hbmem : b ∈ List.replicate k 48 ++ natToDec p := by
      rw [hs]
      exact List.mem_cons_self b r
    have hbr : 48 ≤ b ∧ b ≤ 57 := by
      rcases List.mem_append.mp hbmem with h | h
      · have := List.eq_of_mem_replicate h
        omega
      · have := decDigitsAux_bounds p b (by
          unfold natToDec at h
          exact List.mem_reverse.mp h)
        omega
    unfold i32FromStr
    dsimp only
    rw [if_neg (by omega), if_neg (by omega)]
    rw [← hs, parse_pad k p]
    dsimp only [Option.bind]
    rw [if_pos (by omega)]

theorem topition_roundtrip_aux (topic : List Nat) (p : Nat) (hp : p ≤ 2147483647) :
    topitionFromStr (renderTopition topic p) = some (topic, (p : Int)) := by
  have hlen10 : (natToDec p).length ≤ 10 := by
    have h := decDigitsAux_length 9 p (by omega)
    simpa [natToDec] using h
  have hpadlen : (pad10 (natToDec p)).length = 10 := by
    unfold pad10
    simp only [List.length_append, List.length_replicate]
    omega
  unfold topitionFromStr renderTopition
  have hlen : (topic ++ 45 :: pad10 (natToDec p)).length = topic.length + 11 := by
    simp [hpadlen]
  rw [if_pos (by omega)]
  have hsplit : topic ++ 45 :: pad10 (natToDec p) = (topic ++ [45]) ++ pad10 (natToDec p) := by
    simp
  have hdrop : (topic ++ 45 :: pad10 (natToDec p)).drop
      ((topic ++ 45 :: pad10 (natToDec p)).length - 10) = pad10 (natToDec p) := by
    rw [hlen, hsplit]
    rw [show topic.length + 11 - 10 = (topic ++ [45]).length by simp]
    exact List.drop_left _ _
  have htake : (topic ++ 45 :: pad10 (natToDec p)).take
      ((topic ++ 45 :: pad10 (natToDec p)).length - 11) = topic := by
    rw [hlen]
    rw [show topic.length + 11 - 11 = topic.length by omega]
    exact List.take_left _ _
  rw [hdrop, htake]
  unfold pad10
  rw [i32FromStr_pad p hp]
  rfl

end Tansu

namespace Tansu

theorem deserializeOption_records_flex (d : Decoder) (L : Nat) (rest : List Nat)
    (hval : d.isValid = true) (htag : (d.field == some "tag_buffer") = false)
    (hrec : d.isRecords = true) (hflex : d.isFlexible = true)
    (hL : L < 2 ^ 32) (hin : d.input = encVarint L ++ rest) :
    deserializeOption d =
      if (L + 2 ^ 32 - 1) % 2 ^ 32 = 0 then
        .ok (.vNone, { d with input := rest, pos := d.pos + (encVarint L).length })
      else
        .ok (.vSome,
          { d with
              input := rest
              pos := d.pos + (encVarint L).length
              length := some ((L + 2 ^ 32 - 1) % 2 ^ 32)
              inRecords := true }) := by
  unfold deserializeOption
  simp only [hval, htag, hrec, hflex, Bool.false_eq_true, if_false, if_true,
    unsignedVarint_enc d L rest hL hin]
  by_cases h0 : (L + 2 ^ 32 - 1) % 2 ^ 32 = 0
  · simp [h0]
  · simp [h0]

theorem deserializeBytes_flex (d : Decoder) (L : Nat) (rest : List Nat)
    (hflex : d.isFlexible = true) (hL : L < 2 ^ 32) (hin : d.input = encVarint L ++ rest) :
    deserializeBytes d =
      readExact ((L + 2 ^ 32 - 1) % 2 ^ 32)
        { d with input := rest, pos := d.pos + (encVarint L).length } := by
  unfold deserializeBytes
  simp only [hflex, if_true, unsignedVarint_enc d L rest hL hin]

theorem readMandatory_nonflex_string_neg (d : Decoder) (rest : List Nat)
    (hh : d.inHeader = false) (hnul : d.isNullable = false) (hval : d.isValid = true)
    (hflex : d.isFlexible = false) (hstr : d.isString = true)
    (hin : d.input = 255 :: 255 :: rest) :
    readMandatoryNonNullableLength d = .error .tryFromInt := by
  unfold readMandatoryNonNullableLength
  have hre := readExact_append d [255, 255] rest (by simpa using hin)
  norm_num at hre
  simp only [hh, hnul, hval, hflex, hstr, Bool.false_eq_true, if_false, if_true,
    Bool.false_or, Bool.not_true, Bool.true_or, hre]
  have hb : beVal [255, 255] = 65535 := by decide
  rw [hb]
  norm_num [toInt16]

theorem deserializeOption_records_nonflex (d : Decoder) (N : Nat) (rest : List Nat)
    (hval : d.isValid = true) (htag : (d.field == some "tag_buffer") = false)
    (hrec : d.isRecords = true) (hflex : d.isFlexible = false)
    (hin : d.input = encBE4 N ++ rest) :
    deserializeOption d =
      if N % 2 ^ 32 = 0 then
        .ok (.vNone, { d with input := rest, pos := d.pos + 4 })
      else
        .ok (.vSome,
          { d with
              input := rest
              pos := d.pos + 4
              length := some (N % 2 ^ 32)
              inRecords := true }) := by
  unfold deserializeOption
  have hre := readExact_append d (encBE4 N) rest hin
  rw [encBE4_length] at hre
  simp only [hval, htag, hrec, hflex, Bool.false_eq_true, if_false, if_true, hre,
    beVal_encBE4]
  by_cases h0 : N % 2 ^ 32 = 0
  · simp [h0]
  · simp [h0]

theorem batchLoop_exact (elem : Decoder → Except DErr Decoder)
    (hc : Consumes0 elem) (remaining : Nat) (d : Decoder)
    (hal : BatchAligned elem remaining d) (hbound : remaining < 2 ^ 64) :
    ∀ fuel, remaining ≤ fuel →
      ∃ d1 taken, batchLoop elem fuel remaining d = .ok d1 ∧
        d.input = taken ++ d1.input ∧ taken.length = remaining ∧
        d1.pos = d.pos + remaining := by
  have h64 : (2 : Nat) ^ 64 = 18446744073709551616 := by norm_num
  revert hbound
  induction hal with
  | done d =>
    intro _ fuel _
    have hb : batchLoop elem fuel 0 d = .ok d := by cases fuel <;> rfl
    exact ⟨d, [], hb, by simp, rfl, by simp⟩
  | step remaining d da helem hlt hle hrest ih =>
    intro hbound fuel hfuel
    obtain ⟨r, rfl⟩ : ∃ r, remaining = r + 1 := ⟨remaining - 1, by omega⟩
    obtain ⟨f, rfl⟩ : ∃ f, fuel = f + 1 := ⟨fuel - 1, by omega⟩
    obtain ⟨t1, ht1, hp1⟩ := hc d da helem
    have hdelta : da.pos - d.pos = t1.length := by omega
    have hwrap : (r + 1 + 2 ^ 64 - (da.pos - d.pos)) % 2 ^ 64 =
        r + 1 - (da.pos - d.pos) := by
      rw [h64]
      rw [h64] at hbound
      omega
    have hstep : batchLoop elem (f + 1) (r + 1) d =
        batchLoop elem f (r + 1 - (da.pos - d.pos)) da := by
      simp only [batchLoop, helem, hwrap]
    obtain ⟨d2, t2, hb2, hin2, hlen2, hpos2⟩ :=
      ih (by omega) f (by omega)
    refine ⟨d2, t1 ++ t2, ?_, ?_, ?_, ?_⟩
    · rw [hstep, hb2]
    · rw [ht1, hin2, List.append_assoc]
    · simp only [List.length_append, hlen2]
      omega
    · omega

end Tansu

namespace Tansu

/-! ## Claim theorems -/

/-- Claim C1 (amended).  The claim as stated — `encode(decode(B)) = B` for
every byte sequence `B` that decodes successfully — fails for non-minimal
varint length encodings (see the counterexample); what the codec does
guarantee is the round trip from the value side: for every well-formed
ApiVersions v3 request value, encoding and then decoding through the
embedded `de.rs` walk returns exactly that value, frame length prefix,
header, body and tagged buffers included. -/
theorem claim_C1 (f : ReqFrame) (h : f.wf = true) :
    decodeRequestFrame (encodeRequestFrame f) = .ok f :=
  decode_encode_roundtrip f h

/-- Witness for C1: the 56-byte test frame's value is well-formed and
round-trips through encode then decode. -/
theorem claim_C1_witness :
    ReqFrame.wf sampleFrame = true ∧
      decodeRequestFrame (encodeRequestFrame sampleFrame) = .ok sampleFrame :=
  ⟨by decide, claim_C1 sampleFrame (by decide)⟩

/-- Counterexample to C1 as stated: the 57-byte frame that re-encodes the
`client_software_name` compact length 18 as the non-minimal varint
`0x92 0x00` decodes successfully to the same value as the canonical
56-byte frame, but re-encoding that value yields the canonical bytes, not
the input. -/
theorem claim_C1_counterexample :
    decodeRequestFrame sampleFrameBytesPadded = .ok sampleFrame ∧
      encodeRequestFrame sampleFrame ≠ sampleFrameBytesPadded := by
  constructor
  · rfl
  · decide

/-- Claim C2 (code bug, evaluated at the failing input).  The claim says
an over-long unsigned varint (more than 5 bytes for a u32) fails with
`VarintOverflow`; the decoder's `unsigned_varint` loop has no length
check at all, so the 6-byte encoding `80 80 80 80 80 00` is accepted:
under release-build wrapping semantics it decodes to value 0 after
consuming all 6 bytes (a debug build instead panics on the shift
overflow at `shift = 35`). -/
theorem claim_C2 :
    Decoder.unsignedVarint (Decoder.request [128, 128, 128, 128, 128, 0]) =
      .ok (0, { Decoder.request [] with pos := 6 }) := by
  rfl

/-- Claim C3 (amended).  On the option-sniffed (nullable) flexible string
path, varint `L = 0` decodes to null and otherwise the count is `L - 1`;
but on the mandatory non-nullable path and on the raw-bytes path the
decoder unconditionally computes `L - 1` with u32 wrap-around, so
`L = 0` yields a pending length of `2 ^ 32 - 1` (and a subsequent failed
read), not null. -/
theorem claim_C3 :
    (∀ (d : Decoder) (L : Nat) (rest : List Nat),
        d.isValid = true → (d.field == some "tag_buffer") = false →
        d.isRecords = false → d.isSequence = false → d.isString = true →
        d.isFlexible = true → L < 2 ^ 32 → d.input = encVarint L ++ rest →
        deserializeOption d =
          if L = 0 then
            .ok (.vNone,
              { d with input := rest, pos := d.pos + (encVarint L).length, length := none })
          else
            .ok (.vSome,
              { d with input := rest, pos := d.pos + (encVarint L).length,
                       length := some (L - 1) })) ∧
    (∀ (d : Decoder) (L : Nat) (rest : List Nat),
        d.inHeader = false → d.isNullable = false → d.isValid = true →
        d.isFlexible = true → L < 2 ^ 32 → d.input = encVarint L ++ rest →
        readMandatoryNonNullableLength d =
          .ok { d with input := rest, pos := d.pos + (encVarint L).length,
                       length := some ((L + 2 ^ 32 - 1) % 2 ^ 32) }) ∧
    (∀ (d : Decoder) (L : Nat) (rest : List Nat),
        d.isFlexible = true → L < 2 ^ 32 → d.input = encVarint L ++ rest →
        deserializeBytes d =
          readExact ((L + 2 ^ 32 - 1) % 2 ^ 32)
            { d with input := rest, pos := d.pos + (encVarint L).length }) :=
  ⟨fun d L rest h1 h2 h3 h4 h5 h6 h7 h8 =>
      deserializeOption_string_flex d L rest h1 h2 h3 h4 h5 h6 h7 h8,
   fun d L rest h1 h2 h3 h4 h5 h6 =>
      readMandatory_flex d L rest h1 h2 h3 h4 h5 h6,
   fun d L rest h1 h2 h3 =>
      deserializeBytes_flex d L rest h1 h2 h3⟩

/-- Witness for C3: at the mandatory non-nullable compact-string state
with `L = 0` on the wire, the stored length is `2 ^ 32 - 1`. -/
theorem claim_C3_witness :
    readMandatoryNonNullableLength stateMandatoryZero =
      .ok { stateMandatoryZero with
              input := []
              pos := stateMandatoryZero.pos + (encVarint 0).length
              length := some ((0 + 2 ^ 32 - 1) % 2 ^ 32) } :=
  claim_C3.2.1 stateMandatoryZero 0 [] (by decide) (by decide) (by decide) (by decide)
    (by decide) (by decide)

/-- Counterexample to C3 as stated: on the mandatory non-nullable
flexible path, `L = 0` does not decode to null — the wrapped length
`2 ^ 32 - 1` is stored and the string read then fails short. -/
theorem claim_C3_counterexample :
    readMandatoryNonNullableLength stateMandatoryZero =
        .ok { stateMandatoryZero with input := [], pos := 1, length := some 4294967295 } ∧
      deserializeString stateMandatoryZero = .error .shortRead := by
  constructor
  · rfl
  · rfl

/-- Claim C4 (amended).  `deserialize_option` never consults
`is_nullable`: the null sentinel decodes to null for every option-typed
field regardless of the field's nullable version range (first conjunct
has no nullability hypothesis), and for a mandatory non-option string
the -1 sentinel fails with the numeric-conversion error `tryFromInt`,
not `UnexpectedNull` (no such error exists in `de.rs`). -/
theorem claim_C4 :
    (∀ (d : Decoder) (rest : List Nat),
        d.isValid = true → (d.field == some "tag_buffer") = false →
        d.isRecords = false → d.isSequence = false → d.isString = true →
        d.isFlexible = false → d.input = 255 :: 255 :: rest →
        deserializeOption d =
          .ok (.vNone, { d with input := rest, pos := d.pos + 2, length := none })) ∧
    (∀ (d : Decoder) (rest : List Nat),
        d.inHeader = false → d.isNullable = false → d.isValid = true →
        d.isFlexible = false → d.isString = true → d.input = 255 :: 255 :: rest →
        readMandatoryNonNullableLength d = .error .tryFromInt) :=
  ⟨fun d rest h1 h2 h3 h4 h5 h6 h7 =>
      deserializeOption_string_nonflex_null d rest h1 h2 h3 h4 h5 h6 h7,
   fun d rest h1 h2 h3 h4 h5 h6 =>
      readMandatory_nonflex_string_neg d rest h1 h2 h3 h4 h5 h6⟩

/-- Witness for C4: the -1 sentinel at a concrete non-nullable string
state decodes to null. -/
theorem claim_C4_witness :
    deserializeOption stateNotNullableSentinel =
      .ok (.vNone,
        { stateNotNullableSentinel with
            input := []
            pos := stateNotNullableSentinel.pos + 2
            length := none }) :=
  claim_C4.1 stateNotNullableSentinel [] (by decide) (by decide) (by decide) (by decide)
    (by decide) (by decide) (by decide)

/-- Counterexample to C4 as stated: a field that is not nullable at the
bound version still decodes the -1 sentinel to null — no `UnexpectedNull`
failure occurs. -/
theorem claim_C4_counterexample :
    stateNotNullableSentinel.isNullable = false ∧
      deserializeOption stateNotNullableSentinel =
        .ok (.vNone,
          { stateNotNullableSentinel with input := [], pos := 2, length := none }) := by
  constructor
  · rfl
  · rfl

/-- Claim C5.  A field whose version range does not contain the bound
api_version is not read: `deserialize_option` returns null immediately,
leaving the input stream and position untouched (only the stashed length
is cleared). -/
theorem claim_C5 (d : Decoder) (h : d.isValid = false) :
    deserializeOption d = .ok (.vNone, { d with length := none }) :=
  deserializeOption_invalid d h

/-- Witness for C5: a field live only from version 5 under a version-3
decode consumes nothing and decodes to null. -/
theorem claim_C5_witness :
    stateGatedOut.isValid = false ∧
      deserializeOption stateGatedOut = .ok (.vNone, { stateGatedOut with length := none }) :=
  ⟨by decide, claim_C5 stateGatedOut (by decide)⟩

/-- Claim C6.  For an api_key 18 response, the header is never treated
as flexible — `is_flexible` is false in the header for every api_version
and message meta — and hence the header `tag_buffer` field reads no
bytes and yields none. -/
theorem claim_C6 (d : Decoder) (hh : d.inHeader = true) (hk : d.kind = some .response)
    (ha : d.apiKey = some 18) :
    d.isFlexible = false ∧
      (d.field = some "tag_buffer" → d.isValid = true →
        deserializeOption d = .ok (.vNone, d)) := by
  have hflex : d.isFlexible = false := by
    unfold Decoder.isFlexible
    simp [hh, hk, ha]
  refine ⟨hflex, fun htb hval => ?_⟩
  have h := deserializeOption_tagbuffer d hval htb
  rw [hflex] at h
  simpa using h

/-- Witness for C6: the concrete api 18 response-header state is
non-flexible and its tag buffer decodes to none without consuming
bytes. -/
theorem claim_C6_witness :
    deserializeOption stateApi18RespHeader = .ok (.vNone, stateApi18RespHeader) :=
  (claim_C6 stateApi18RespHeader (by decide) (by decide) (by decide)).2 rfl (by decide)

/-- Claim C7 (amended).  A live records field reads its length encoding
but computes the count apart from the length rule's sentinels: flexible
mode computes `L - 1` with u32 wrap-around (so the rule's null sentinel
`L = 0` becomes `2 ^ 32 - 1`), non-flexible mode takes the raw unsigned
32-bit word (so the rule's `-1` sentinel becomes `4294967295`); the
field decodes to null exactly when the computed count is zero, and
otherwise that count is stashed (with `in_records` set) as the byte
budget handed to the record-batch reader `Batch`; the batch reader then
consumes exactly that many bytes for the field — no more and no fewer —
whenever the batch's elements parse to that exact byte alignment (part
three, for every position-faithful element decoder). -/
theorem claim_C7 :
    (∀ (d : Decoder) (L : Nat) (rest : List Nat),
      d.isValid = true → (d.field == some "tag_buffer") = false →
      d.isRecords = true → d.isFlexible = true →
      L < 2 ^ 32 → d.input = encVarint L ++ rest →
      deserializeOption d =
        if (L + 2 ^ 32 - 1) % 2 ^ 32 = 0 then
          .ok (.vNone, { d with input := rest, pos := d.pos + (encVarint L).length })
        else
          .ok (.vSome,
            { d with
                input := rest
                pos := d.pos + (encVarint L).length
                length := some ((L + 2 ^ 32 - 1) % 2 ^ 32)
                inRecords := true })) ∧
    (∀ (d : Decoder) (N : Nat) (rest : List Nat),
      d.isValid = true → (d.field == some "tag_buffer") = false →
      d.isRecords = true → d.isFlexible = false →
      d.input = encBE4 N ++ rest →
      deserializeOption d =
        if N % 2 ^ 32 = 0 then
          .ok (.vNone, { d with input := rest, pos := d.pos + 4 })
        else
          .ok (.vSome,
            { d with
                input := rest
                pos := d.pos + 4
                length := some (N % 2 ^ 32)
                inRecords := true })) ∧
    (∀ (elem : Decoder → Except DErr Decoder) (budget : Nat) (d : Decoder),
      Consumes0 elem → BatchAligned elem budget d → budget < 2 ^ 64 →
      ∀ fuel, budget ≤ fuel →
        ∃ d1 taken, batchLoop elem fuel budget d = .ok d1 ∧
          d.input = taken ++ d1.input ∧ taken.length = budget ∧
          d1.pos = d.pos + budget) :=
  ⟨fun d L rest hval htag hrec hflex hL hin =>
      deserializeOption_records_flex d L rest hval htag hrec hflex hL hin,
   fun d N rest hval htag hrec hflex hin =>
      deserializeOption_records_nonflex d N rest hval htag hrec hflex hin,
   fun elem budget d hc hal hb fuel hf =>
      batchLoop_exact elem hc budget d hal hb fuel hf⟩

/-- Witness for C7: a flexible records field with varint `L = 1`
(present, zero bytes) decodes via the first conjunct, and a non-flexible
records field with the word 0 decodes to null via the second. -/
theorem claim_C7_witness :
    (deserializeOption stateRecordsOne =
      if (1 + 2 ^ 32 - 1) % 2 ^ 32 = 0 then
        .ok (.vNone,
          { stateRecordsOne with
              input := []
              pos := stateRecordsOne.pos + (encVarint 1).length })
      else
        .ok (.vSome,
          { stateRecordsOne with
              input := []
              pos := stateRecordsOne.pos + (encVarint 1).length
              length := some ((1 + 2 ^ 32 - 1) % 2 ^ 32)
              inRecords := true })) ∧
    (deserializeOption { stateRecordsNegOne with input := [0, 0, 0, 0] } =
      if 0 % 2 ^ 32 = 0 then
        .ok (.vNone,
          { stateRecordsNegOne with
              input := ([] : List Nat)
              pos := stateRecordsNegOne.pos + 4 })
      else
        .ok (.vSome,
          { stateRecordsNegOne with
              input := ([] : List Nat)
              pos := stateRecordsNegOne.pos + 4
              length := some (0 % 2 ^ 32)
              inRecords := true })) :=
  ⟨claim_C7.1 stateRecordsOne 1 [] (by decide) (by decide) (by decide) (by decide)
      (by decide) (by decide),
   claim_C7.2.1 { stateRecordsNegOne with input := [0, 0, 0, 0] } 0 [] (by decide)
      (by decide) (by decide) (by decide) (by decide)⟩

/-- Counterexample to C7 as stated: neither null sentinel of the length
rule decodes a records field to null.  Flexible: `L = 0` wraps to a
present field with a 4294967295-byte budget; non-flexible: the signed
`-1` word `FF FF FF FF` is taken unsigned, a present field with the same
budget. -/
theorem claim_C7_counterexample :
    (deserializeOption stateRecordsZero =
      .ok (.vSome,
        { stateRecordsZero with
            input := []
            pos := 1
            length := some 4294967295
            inRecords := true })) ∧
    (deserializeOption stateRecordsNegOne =
      .ok (.vSome,
        { stateRecordsNegOne with
            input := []
            pos := 4
            length := some 4294967295
            inRecords := true })) := by
  exact ⟨rfl, rfl⟩

/-- Claim C8.  The 56-byte ApiVersions v3 request frame of the codec test
decodes to api_key 18, api_version 3, client_id "console-producer",
client_software_name "apache-kafka-java" and client_software_version
"3.6.1" (strings shown as their UTF-8 byte lists), and re-encoding the
decoded value reproduces the input bytes exactly. -/
theorem claim_C8 :
    sampleFrameBytes.length = 56 ∧
      decodeRequestFrame sampleFrameBytes = .ok sampleFrame ∧
      sampleFrame.apiKey = 18 ∧
      sampleFrame.apiVersion = 3 ∧
      sampleFrame.clientId =
        some [99, 111, 110, 115, 111, 108, 101, 45, 112, 114, 111, 100, 117, 99, 101, 114] ∧
      sampleFrame.clientSoftwareName =
        some [97, 112, 97, 99, 104, 101, 45, 107, 97, 102, 107, 97, 45, 106, 97, 118, 97] ∧
      sampleFrame.clientSoftwareVersion = some [51, 46, 54, 46, 49] ∧
      encodeRequestFrame sampleFrame = sampleFrameBytes := by
  refine ⟨by decide, by rfl, by rfl, by rfl, by rfl, by rfl, by rfl, by rfl⟩

/-- Claim C9.  Position accounting: every embedded read operation, on
success, removes exactly a prefix of the input stream and advances the
decoder position by exactly that prefix's length — the `ReadPosition`
counter equals the bytes consumed, across primitives, varints, lengths,
strings, bytes, the option sniffer and tag buffers. -/
theorem claim_C9 :
    (∀ n, Consumes (readExact n)) ∧
      Consumes Decoder.unsignedVarint ∧
      Consumes deserializeI16 ∧
      Consumes deserializeI32 ∧
      Consumes deserializeString ∧
      Consumes deserializeBytes ∧
      Consumes deserializeOption ∧
      Consumes0 readMandatoryNonNullableLength ∧
      (∀ n, Consumes (decodeTagEntries n)) ∧
      Consumes decodeTagBuffer :=
  ⟨consumes_readExact, consumes_unsignedVarint, consumes_deserializeI16,
   consumes_deserializeI32, consumes_deserializeString, consumes_deserializeBytes,
   consumes_deserializeOption, consumes0_readMandatory, consumes_decodeTagEntries,
   consumes_decodeTagBuffer⟩

/-- Witness for C9: reading two bytes from a three-byte stream consumes
exactly the two-byte prefix and advances the position by 2. -/
theorem claim_C9_witness :
    ∃ taken : List Nat,
      (Decoder.request [7, 8, 9]).input =
          taken ++ ({ Decoder.request [9] with pos := 2 } : Decoder).input ∧
        ({ Decoder.request [9] with pos := 2 } : Decoder).pos =
          (Decoder.request [7, 8, 9]).pos + taken.length :=
  claim_C9.1 2 (Decoder.request [7, 8, 9]) [7, 8]
    { Decoder.request [9] with pos := 2 } rfl

/-- Claim C10.  Rendering a `Topition` with a non-negative partition to
its directory name `"{topic}-{partition:0>10}"` and parsing it back with
`Topition::from_str` recovers the topic and partition exactly, for every
topic byte string (dashes and trailing digits included) and every
partition in the i32 range. -/
theorem claim_C10 (topic : List Nat) (p : Nat) (hp : p ≤ 2147483647) :
    topitionFromStr (renderTopition topic p) = some (topic, (p : Int)) :=
  topition_roundtrip_aux topic p hp

/-- Witness for C10: the topic "qwerty-0" (with a dash and a trailing
digit) and partition 2147483647 round-trip. -/
theorem claim_C10_witness :
    topitionFromStr (renderTopition [113, 119, 101, 114, 116, 121, 45, 48] 2147483647) =
      some ([113, 119, 101, 114, 116, 121, 45, 48], (2147483647 : Int)) :=
  claim_C10 [113, 119, 101, 114, 116, 121, 45, 48] 2147483647 (by decide)

end Tansu
